import Mathlib

/-!
Verification of the analytics dashboard aggregation core (`src/lib/ga.ts`)
against its specification.

Embedding conventions, used throughout:

* Calendar dates (`YYYY-MM-DD` strings in the code) are modelled as UTC
  epoch-day integers (`Int`).  `addDays` on a JS `Date` restricted to UTC
  midnight is exactly integer addition, and `formatDate` / `parseIsoDate`
  are a bijection between valid day numbers and `YYYY-MM-DD` strings, so
  string-keyed date lookups correspond to `Int` equality.
* GA metric values arrive as decimal strings and are read with
  `Number(x ?? 0)`; they are modelled as the integers they denote, with a
  missing value modelled as `Option.getD 0` (the code's `?? 0`).
* `pct` is a JS float `delta / previous`; division is modelled exactly on
  `ℚ`.  The null-vs-value policy (the part the spec pins down) is identical.
* Remote HTTP calls are modelled by a `RemoteWorld` oracle: each endpoint
  is a function from the request's property id to `Except String` of the
  parsed response, the `String` being the thrown error's `.message`.  A
  thrown non-`Error` or an `Error` with empty message both surface through
  `withErrorMessage` as the default message, modelled by the empty string.
* `process.env` configuration is an explicit `Env` value.
* JS string functions that the code uses (`split(",")`, `trim`,
  `toLowerCase`, the two regexes in `normalizeUri`) are implemented over
  `List Char` so that they compute inside the kernel; `toLowerCase` is
  modelled on ASCII, which covers every string the code compares.
* The two bounded-concurrency fan-outs go through `runLimited`, whose
  order-preservation is proved separately against a small-step scheduler
  model (claim C9); the sequential stages below use `List.map`, the
  input-order result that C9 establishes.
* `Array.prototype.sort` is, per the ECMAScript specification, a stable
  sort agreeing with the comparator; it is modelled by the stable
  `List.insertionSort` with the same comparison.
-/

/-- ga.ts line 79: default error text. -/
def DEFAULT_ERROR : String := "Unexpected response from Google APIs."

/-- ga.ts lines 81-86: surface a thrown error's message, falling back to
`DEFAULT_ERROR` when there is none.  A missing or empty message is
modelled as the empty string. -/
def withErrorMessage (e : String) : String :=
  if e = "" then DEFAULT_ERROR else e

/-- ga.ts lines 88-92: `addDays` on UTC-midnight dates is day-number
addition. -/
def addDays (date : Int) (amount : Int) : Int := date + amount

/-- Strip a leading `http://` or `https://`, the `^https?:\/\//` regex of
ga.ts line 102 (case-sensitive, at the start only). -/
def stripSchemeChars (cs : List Char) : List Char :=
  match cs with
  | 'h' :: 't' :: 't' :: 'p' :: 's' :: ':' :: '/' :: '/' :: rest => rest
  | 'h' :: 't' :: 't' :: 'p' :: ':' :: '/' :: '/' :: rest => rest
  | _ => cs

/-- Strip one trailing slash, the `\/$` regex of ga.ts line 102. -/
def dropTrailingSlashChars (cs : List Char) : List Char :=
  match cs.getLast? with
  | some '/' => cs.dropLast
  | _ => cs

/-- ga.ts lines 101-102: normalize a site URI for deduplication — scheme
stripped, one trailing slash stripped, lowercased (in that order). -/
def normalizeUri (value : String) : String :=
  String.mk ((dropTrailingSlashChars (stripSchemeChars value.data)).map Char.toLower)

/-- ga.ts lines 14-18: `WINDOW_DAYS` record.  A TS record lookup at a key
with no entry yields `undefined`, modelled as `none`. -/
def WINDOW_DAYS (windowKey : String) : Option Nat :=
  if windowKey = "d1" then some 1
  else if windowKey = "d7" then some 7
  else if windowKey = "d28" then some 28
  else none

/-- ga.ts line 19. -/
def DEFAULT_BLOCKLIST : List String := ["508295014"]

/-- ga.ts lines 35-38: a date range, both bounds inclusive. -/
structure DateRange where
  startDate : Int
  endDate : Int
deriving DecidableEq, Repr

/-- ga.ts lines 116-121: every calendar day of a range, as day offsets
from `startDate`. -/
def buildDateList (startDate : Int) (days : Nat) : List Int :=
  (List.range days).map (fun (index : Nat) => addDays startDate (index : Int))

/-- Result shape of `getDateRanges`. -/
structure DateRanges where
  current : DateRange
  previous : DateRange
deriving DecidableEq, Repr

/-- ga.ts lines 127-147, after the `WINDOW_DAYS` lookup has produced
`days`: the current/previous comparison windows ending the day before
`todayUtc`. -/
def rangesForDays (days : Nat) (todayUtc : Int) : DateRanges :=
  let currentEnd := addDays todayUtc (-1)
  let currentStart := addDays currentEnd (-((days : Int) - 1))
  let previousEnd := addDays currentStart (-1)
  let previousStart := addDays previousEnd (-((days : Int) - 1))
  { current := { startDate := currentStart, endDate := currentEnd },
    previous := { startDate := previousStart, endDate := previousEnd } }

/-- ga.ts lines 123-147: `getDateRanges`.  For a key missing from
`WINDOW_DAYS` the JS code reads `undefined` and poisons every date with
`NaN`; that degenerate outcome is modelled as `none` (see claim C7). -/
def getDateRanges (windowKey : String) (todayUtc : Int) : Option DateRanges :=
  (WINDOW_DAYS windowKey).map (fun days => rangesForDays days todayUtc)

/-- `"a,b".split(",")` of JS, on character lists: split at every comma,
keeping empty fragments. -/
def splitCommaAux : List Char → List Char → List (List Char)
  | [], acc => [acc.reverse]
  | c :: rest, acc =>
    if c = ',' then acc.reverse :: splitCommaAux rest []
    else splitCommaAux rest (c :: acc)

/-- JS `raw.split(",")`. -/
def jsSplitCommas (raw : String) : List String :=
  (splitCommaAux raw.data []).map String.mk

/-- JS `String.prototype.trim`: drop leading and trailing whitespace. -/
def jsTrim (s : String) : String :=
  String.mk (((s.data.dropWhile Char.isWhitespace).reverse.dropWhile Char.isWhitespace).reverse)

/-- ga.ts lines 149-157: parse `GA_PROPERTY_ALLOWLIST`.  An unset or empty
variable (both falsy) yields no allowlist; otherwise the comma-separated
ids are trimmed, empties dropped, and an empty result again yields no
allowlist.  The JS `Set` is modelled as the id list (only membership is
ever used). -/
def getAllowlist (raw : Option String) : Option (List String) :=
  match raw with
  | none => none
  | some r =>
    if r = "" then none
    else
      let ids := ((jsSplitCommas r).map jsTrim).filter (fun v => !(v == ""))
      if ids.isEmpty then none else some ids

/-- ga.ts lines 159-167: parse `GA_PROPERTY_BLOCKLIST`, always unioned
with `DEFAULT_BLOCKLIST`. -/
def getBlocklist (raw : Option String) : List String :=
  match raw with
  | none => DEFAULT_BLOCKLIST
  | some r =>
    if r = "" then DEFAULT_BLOCKLIST
    else
      DEFAULT_BLOCKLIST ++ ((jsSplitCommas r).map jsTrim).filter (fun v => !(v == ""))

/-- ga.ts lines 21-24. -/
structure PropertySummary where
  propertyId : String
  displayName : String
deriving DecidableEq, Repr

/-- ga.ts lines 53-56: the `webStreamData` of a data stream. -/
structure WebStreamData where
  defaultUri : Option String
  measurementId : Option String
deriving DecidableEq, Repr

/-- ga.ts lines 51-57: one entry of a data-streams listing. -/
structure DataStream where
  type : Option String
  webStreamData : Option WebStreamData
deriving DecidableEq, Repr

/-- ga.ts lines 26-29. -/
structure WebStreamInfo where
  defaultUri : Option String
  measurementId : Option String
deriving DecidableEq, Repr

/-- JS truthiness of the optional `defaultUri` string in
`webStreams.find((stream) => stream.webStreamData?.defaultUri)`:
present and non-empty. -/
def hasTruthyUri (s : DataStream) : Bool :=
  match s.webStreamData with
  | some w =>
    match w.defaultUri with
    | some u => !(u == "")
    | none => false
  | none => false

/-- ga.ts lines 275-291: pick the preferred web stream — filter to web
streams (`type === "WEB_DATA_STREAM"` or a truthy `webStreamData`
object), return `null` when there are none, otherwise prefer the first
stream with a truthy `defaultUri`, falling back to the first web
stream. -/
def pickWebStream (streams : List DataStream) : Option WebStreamInfo :=
  let webStreams := streams.filter
    (fun s => s.type == some "WEB_DATA_STREAM" || s.webStreamData.isSome)
  match webStreams with
  | [] => none
  | w :: ws =>
    let preferred := ((w :: ws).find? hasTruthyUri).getD w
    some { defaultUri := preferred.webStreamData.bind (fun d => d.defaultUri),
           measurementId := preferred.webStreamData.bind (fun d => d.measurementId) }

/-- ga.ts lines 62-64: one `{value?: string}` dimension cell. -/
structure DimCell where
  value : Option String
deriving DecidableEq, Repr

/-- ga.ts lines 62-64: one `{value?: string}` metric cell, its decimal
string modelled as the integer it denotes. -/
structure MetricCell where
  value : Option Int
deriving DecidableEq, Repr

/-- ga.ts lines 61-66: one row of a `runReport` response. -/
structure ReportRow where
  dimensionValues : Option (List DimCell)
  metricValues : Option (List MetricCell)
deriving DecidableEq, Repr

/-- ga.ts lines 61-66: a `runReport` response body. -/
structure RunReportResponse where
  rows : Option (List ReportRow)
deriving DecidableEq, Repr

/-- ga.ts lines 34 and 645-650 of the type declarations: the summary
comparison for one property. -/
structure NewUsersDelta where
  current : Int
  previous : Int
  delta : Int
  pct : Option ℚ
deriving DecidableEq

/-- ga.ts line 334: `row.dimensionValues?.[0]?.value`. -/
def rowLabel (row : ReportRow) : Option String :=
  (row.dimensionValues.bind List.head?).bind (fun c => c.value)

/-- ga.ts line 335: `Number(row.metricValues?.[0]?.value ?? 0)`. -/
def rowValue (row : ReportRow) : Int :=
  ((row.metricValues.bind List.head?).bind (fun c => c.value)).getD 0

/-- ga.ts lines 329-341: the tag-matching loop of `fetchNewUsers` —
`date_range_0` rows overwrite `current`, `date_range_1` rows overwrite
`previous`, all other rows change nothing. -/
def newUsersLoop (rows : List ReportRow) : Int × Int :=
  rows.foldl
    (fun acc row =>
      if rowLabel row = some "date_range_0" then (rowValue row, acc.2)
      else if rowLabel row = some "date_range_1" then (acc.1, rowValue row)
      else acc)
    (0, 0)

/-- ga.ts lines 346-352: the single-flat-row override — exactly one row
whose `dimensionValues` is absent or empty and which carries at least two
metric values is read positionally as `[current, previous]`; otherwise
the looped values stand. -/
def flatRowOverride (rows : List ReportRow) (looped : Int × Int) : Int × Int :=
  match rows with
  | [row] =>
    if (row.dimensionValues.getD []).isEmpty then
      let values := row.metricValues.getD []
      if 2 ≤ values.length then
        ((values[0]?.bind (fun c => c.value)).getD 0,
         (values[1]?.bind (fun c => c.value)).getD 0)
      else looped
    else looped
  | _ => looped

/-- ga.ts lines 329-357: the pure row-processing part of `fetchNewUsers`
applied to the already-fetched rows (`data.rows ?? []`). -/
def fetchNewUsersRows (rows : List ReportRow) : NewUsersDelta :=
  let looped := newUsersLoop rows
  let pair := if rows.isEmpty then ((0 : Int), (0 : Int)) else flatRowOverride rows looped
  let delta := pair.1 - pair.2
  { current := pair.1, previous := pair.2, delta := delta,
    pct := if pair.2 = 0 then none else some ((delta : ℚ) / (pair.2 : ℚ)) }

/-- ga.ts lines 310-358: `fetchNewUsers` on a `runReport` response. -/
def fetchNewUsers (resp : RunReportResponse) : NewUsersDelta :=
  fetchNewUsersRows (resp.rows.getD [])

/-- ga.ts lines 68-71: one parsed series row. -/
structure SeriesRow where
  date : Int
  value : Int
deriving DecidableEq, Repr

/-- ga.ts lines 667-671 of the type declarations: one aligned series
point. -/
structure PropertySeriesPoint where
  date : Int
  current : Int
  previous : Int
deriving DecidableEq, Repr

/-- ga.ts lines 400-401: `new Map(rows.map((row) => [row.date, row.value]))`
followed by `.get`.  A JS `Map` built from an entry list keeps, for each
key, the last entry — equivalently the first match in the reversed
list. -/
def seriesMapGet (rows : List SeriesRow) (date : Int) : Option Int :=
  (rows.reverse.find? (fun row => row.date == date)).map (fun row => row.value)

/-- Result shape of `buildSeries`. -/
structure BuildSeriesResult where
  series : List PropertySeriesPoint
  currentTotal : Int
  previousTotal : Int
deriving DecidableEq, Repr

/-- ga.ts lines 387-413: `buildSeries` — zero-filled, offset-aligned
series over the two equal-length calendar-day lists, plus its totals.
The code pairs `currentDates[index]` with `previousDates[index]`; the two
lists have the same length, so the indexing is rendered as `zip`. -/
def buildSeries (currentRange : DateRange) (previousRange : DateRange)
    (currentRows : List SeriesRow) (previousRows : List SeriesRow)
    (days : Nat) : BuildSeriesResult :=
  let currentDates := buildDateList currentRange.startDate days
  let previousDates := buildDateList previousRange.startDate days
  let series := (currentDates.zip previousDates).map
    (fun p =>
      { date := p.1,
        current := (seriesMapGet currentRows p.1).getD 0,
        previous := (seriesMapGet previousRows p.2).getD 0 })
  { series := series,
    currentTotal := series.foldl (fun sum point => sum + point.current) 0,
    previousTotal := series.foldl (fun sum point => sum + point.previous) 0 }

/-- ga.ts lines 616-628 inside `getPropertyDetail`: the summary derived
from the series totals. -/
def detailSummary (currentTotal : Int) (previousTotal : Int) : NewUsersDelta :=
  let delta := currentTotal - previousTotal
  { current := currentTotal, previous := previousTotal, delta := delta,
    pct := if previousTotal = 0 then none else some ((delta : ℚ) / (previousTotal : ℚ)) }

/-- ga.ts lines 652-659 of the type declarations (as constructed at lines
480-520 — the code's object literals do not set the declared `emoji`
field, so it is absent here). -/
structure DashboardProperty where
  propertyId : String
  displayName : String
  defaultUri : Option String
  newUsers : Option NewUsersDelta
  error : Option String
deriving DecidableEq

/-- ga.ts lines 661-665 of the type declarations. -/
structure DashboardResponse where
  updatedAt : String
  window : String
  properties : List DashboardProperty
deriving DecidableEq

/-- ga.ts lines 73-77. -/
structure StreamResult where
  summary : PropertySummary
  webStream : Option WebStreamInfo
  error : Option String
deriving DecidableEq, Repr

/-- ga.ts lines 673-678 of the type declarations (without the `emoji`
field, which `getPropertyMetadata` never sets). -/
structure PropertyDetail where
  propertyId : String
  displayName : String
  defaultUri : Option String
deriving DecidableEq, Repr

/-- ga.ts lines 680-687 of the type declarations. -/
structure PropertyDetailResponse where
  updatedAt : String
  window : String
  property : PropertyDetail
  summary : Option NewUsersDelta
  series : List PropertySeriesPoint
  error : Option String
deriving DecidableEq

/-- The remote services, as a deterministic oracle: each field is the
parsed result of the corresponding (paginated) remote call, or the
message of the error it throws.  `accountSummaries` is the flattened
output of `listPropertySummaries` (ga.ts lines 221-253) and `dataStreams`
that of `listDataStreams` (lines 255-273); their pagination and id
extraction are not themselves under test.  `seriesRows` is the parsed
result of `fetchNewUsersSeries` (lines 360-385) for a given range. -/
structure RemoteWorld where
  auth : Except String Unit
  accountSummaries : Except String (List PropertySummary)
  dataStreams : String → Except String (List DataStream)
  runReport : String → Except String RunReportResponse
  propertyName : String → Except String (Option String)
  seriesRows : String → DateRange → Except String (List SeriesRow)

/-- The configuration read from `process.env`, plus the clock values the
entry points read (`new Date()`). -/
structure Env where
  allowRaw : Option String
  blockRaw : Option String
  nowIso : String
  todayUtc : Int

/-- ga.ts lines 449-455: catalog filtered by the allowlist (when
configured) and then the blocklist. -/
def filteredSummaries (env : Env) (summaries : List PropertySummary) : List PropertySummary :=
  let fs := match getAllowlist env.allowRaw with
    | some al => summaries.filter (fun (s : PropertySummary) => al.contains s.propertyId)
    | none => summaries
  fs.filter (fun s => !((getBlocklist env.blockRaw).contains s.propertyId))

/-- ga.ts lines 460-471: the per-property stream-resolution worker — a
thrown listing error becomes an error-carrying `StreamResult`, a missing
web stream becomes `null`, success carries the stream. -/
def streamWorker (world : RemoteWorld) (summary : PropertySummary) : Option StreamResult :=
  match world.dataStreams summary.propertyId with
  | Except.error e => some { summary := summary, webStream := none, error := some (withErrorMessage e) }
  | Except.ok streams =>
    match pickWebStream streams with
    | none => none
    | some ws => some { summary := summary, webStream := some ws, error := none }

/-- ga.ts lines 457-472: the first bounded fan-out; `runLimited` returns
results in input order (claim C9), so the stage denotes to `map`. -/
def streamResultsStage (env : Env) (world : RemoteWorld)
    (summaries : List PropertySummary) : List (Option StreamResult) :=
  (filteredSummaries env summaries).map (streamWorker world)

/-- JS truthiness of `result.error` at ga.ts line 481: present and
non-empty. -/
def errTruthy (e : Option String) : Bool :=
  match e with
  | some s => !(s == "")
  | none => false

/-- ga.ts lines 482-488: the error row pushed for a failed stream
lookup. -/
def streamErrorRow (r : StreamResult) : DashboardProperty :=
  { propertyId := r.summary.propertyId, displayName := r.summary.displayName,
    defaultUri := none, newUsers := none, error := r.error }

/-- ga.ts lines 474-492, error side: the rows collected from failed
stream lookups, in stage order. -/
def errorRowsOf (rs : List (Option StreamResult)) : List DashboardProperty :=
  rs.filterMap (fun o =>
    match o with
    | some r => if errTruthy r.error then some (streamErrorRow r) else none
    | none => none)

/-- ga.ts lines 474-492, success side: the stream results forwarded to
the metrics fan-out, in stage order. -/
def reportTargetsOf (rs : List (Option StreamResult)) : List StreamResult :=
  rs.filterMap (fun o =>
    match o with
    | some r => if errTruthy r.error then none else some r
    | none => none)

/-- ga.ts lines 497-520: the per-property metrics worker — a thrown
report fetch becomes an error row, success carries the computed
`NewUsersDelta`. -/
def reportWorker (world : RemoteWorld) (result : StreamResult) : DashboardProperty :=
  match world.runReport result.summary.propertyId with
  | Except.ok resp =>
    { propertyId := result.summary.propertyId,
      displayName := result.summary.displayName,
      defaultUri := result.webStream.bind (fun w => w.defaultUri),
      newUsers := some (fetchNewUsers resp), error := none }
  | Except.error e =>
    { propertyId := result.summary.propertyId,
      displayName := result.summary.displayName,
      defaultUri := result.webStream.bind (fun w => w.defaultUri),
      newUsers := none, error := some (withErrorMessage e) }

/-- ga.ts lines 494-521: the second bounded fan-out, again order
preserving by claim C9. -/
def reportRowsOf (world : RemoteWorld) (targets : List StreamResult) : List DashboardProperty :=
  targets.map (reportWorker world)

/-- ga.ts lines 524-526: the sort key `a.newUsers?.current ?? -1`. -/
def sortKey (p : DashboardProperty) : Int :=
  match p.newUsers with
  | some nu => nu.current
  | none => -1

/-- ga.ts lines 523-527: merge report rows and stream-error rows and sort
by `newUsers.current` descending.  ECMAScript requires `Array.prototype.sort`
to be stable and consistent with the comparator, which the stable
`insertionSort` under the same ordering realises. -/
def sortedStage (reportRows : List DashboardProperty)
    (errorRows : List DashboardProperty) : List DashboardProperty :=
  List.insertionSort (fun a b => sortKey b ≤ sortKey a) (reportRows ++ errorRows)

/-- JS falsiness of the optional `defaultUri` string, the guard
`!property.defaultUri` at ga.ts line 532: absent or empty. -/
def uriFalsy (o : Option String) : Bool :=
  match o with
  | some u => u == ""
  | none => true

/-- ga.ts lines 529-542: deduplicate by normalized domain — a row whose
`defaultUri` is JS-falsy (`null` or the empty string) always passes the
guard `!property.defaultUri` and is pushed without touching the seen
set; among the remaining rows the first one carrying each normalized
domain is kept, later ones are dropped.  `seen` is the accumulated
`Set`. -/
def dedupeLoop : List DashboardProperty → List String → List DashboardProperty
  | [], _ => []
  | p :: rest, seen =>
    match p.defaultUri with
    | none => p :: dedupeLoop rest seen
    | some u =>
      if u = "" then p :: dedupeLoop rest seen
      else if seen.contains (normalizeUri u) then dedupeLoop rest seen
      else p :: dedupeLoop rest (normalizeUri u :: seen)

/-- ga.ts lines 523-542 composed: merged, sorted, deduplicated rows for
one catalog. -/
def mergedStage (env : Env) (world : RemoteWorld)
    (summaries : List PropertySummary) : List DashboardProperty :=
  sortedStage
    (reportRowsOf world (reportTargetsOf (streamResultsStage env world summaries)))
    (errorRowsOf (streamResultsStage env world summaries))

/-- ga.ts lines 441-549: `getDashboardData`.  Only token acquisition and
the catalog listing can fail; every per-property failure has already been
folded into rows by the stages above.  The date ranges the code computes
feed only the remote request bodies, which the oracle abstracts. -/
def getDashboardData (env : Env) (world : RemoteWorld) (windowKey : String) :
    Except String DashboardResponse := do
  let _token ← world.auth
  let summaries ← world.accountSummaries
  Except.ok
    { updatedAt := env.nowIso, window := windowKey,
      properties := dedupeLoop (mergedStage env world summaries) [] }

/-- ga.ts lines 293-308: `getPropertyMetadata` — property display name
plus the preferred web stream's URI, failing when either remote call
fails. -/
def getPropertyMetadata (world : RemoteWorld) (propertyId : String) :
    Except String PropertyDetail := do
  let name ← world.propertyName propertyId
  let streams ← world.dataStreams propertyId
  let webStream := pickWebStream streams
  Except.ok
    { propertyId := propertyId, displayName := name.getD propertyId,
      defaultUri := (webStream.bind (fun w => w.defaultUri)) }

/-- ga.ts lines 551-642: `getPropertyDetail`.  Blocklist and allowlist
checks return immediately, before any remote call (even token
acquisition); afterwards only an auth failure escapes, every other
failure degrading to an error-carrying response.  For a window key
missing from `WINDOW_DAYS` the JS code would compute `NaN` date ranges
and an empty series (see claim C7); that branch is modelled as an
explicit failure and no theorem relies on it. -/
def getPropertyDetail (env : Env) (world : RemoteWorld) (propertyId : String)
    (windowKey : String) : Except String PropertyDetailResponse :=
  let fallbackProperty : PropertyDetail :=
    { propertyId := propertyId, displayName := propertyId, defaultUri := none }
  if (getBlocklist env.blockRaw).contains propertyId then
    Except.ok
      { updatedAt := env.nowIso, window := windowKey, property := fallbackProperty,
        summary := none, series := [],
        error := some "Property is excluded from the dashboard." }
  else if (match getAllowlist env.allowRaw with
           | some al => !(al.contains propertyId)
           | none => false) then
    Except.ok
      { updatedAt := env.nowIso, window := windowKey, property := fallbackProperty,
        summary := none, series := [],
        error := some "Property is not included in GA_PROPERTY_ALLOWLIST." }
  else do
    let _token ← world.auth
    match WINDOW_DAYS windowKey with
    | none => Except.error "WINDOW_DAYS has no entry for this window key"
    | some days =>
      let ranges := rangesForDays days env.todayUtc
      match getPropertyMetadata world propertyId with
      | Except.error e =>
        Except.ok
          { updatedAt := env.nowIso, window := windowKey, property := fallbackProperty,
            summary := none, series := [], error := some (withErrorMessage e) }
      | Except.ok property =>
        match world.seriesRows propertyId ranges.current,
              world.seriesRows propertyId ranges.previous with
        | Except.ok currentRows, Except.ok previousRows =>
          let r := buildSeries ranges.current ranges.previous currentRows previousRows days
          Except.ok
            { updatedAt := env.nowIso, window := windowKey, property := property,
              summary := some (detailSummary r.currentTotal r.previousTotal),
              series := r.series, error := none }
        | Except.error e, _ =>
          Except.ok
            { updatedAt := env.nowIso, window := windowKey, property := property,
              summary := none, series := [], error := some (withErrorMessage e) }
        | _, Except.error e =>
          Except.ok
            { updatedAt := env.nowIso, window := windowKey, property := property,
              summary := none, series := [], error := some (withErrorMessage e) }

/-- src/app/api/dashboard/route.ts line 9: the aggregate view's window
whitelist. -/
def dashboardWindowValues : List String := ["d1", "d7", "d28"]

/-- src/app/api/dashboard/route.ts lines 11-15: window selection —
`searchParams.get("window") ?? "d7"`, then fall back to `"d7"` when the
value is not whitelisted. -/
def dashboardRouteWindowKey (windowParam : Option String) : String :=
  let wp := windowParam.getD "d7"
  if dashboardWindowValues.contains wp then wp else "d7"

/-- src/app/api/properties/[propertyId]/route.ts lines 9-16: the detail
view's window whitelist. -/
def detailWindowValues : List String := ["d1", "d7", "d28", "d90", "d180", "d365"]

/-- src/app/api/properties/[propertyId]/route.ts lines 22-26: window
selection for the detail view. -/
def detailRouteWindowKey (windowParam : Option String) : String :=
  let wp := windowParam.getD "d7"
  if detailWindowValues.contains wp then wp else "d7"

/-- One logical worker of `runLimited` (ga.ts lines 423-435):
at the top of its `while` loop (`idle`), suspended in
`await worker(items[currentIndex], currentIndex)` (`waiting i`), or
broken out (`done`). -/
inductive RunnerState where
  | idle : RunnerState
  | waiting : Nat → RunnerState
  | done : RunnerState
deriving DecidableEq, Repr

/-- The shared state of one `runLimited` call (ga.ts lines 415-439):
the claim cursor `nextIndex`, the results buffer (`new Array(n)`, holes
as `none`), and the runner pool. -/
structure RLState (R : Type) where
  nextIndex : Nat
  results : List (Option R)
  runners : List RunnerState
deriving DecidableEq, Repr

/-- ga.ts lines 420-424: the initial state of `runLimited` — cursor 0, an
`items.length`-sized hole-filled buffer, and `min(limit, items.length)`
idle runners. -/
def initState {T R : Type} (items : List T) (limit : Nat) : RLState R :=
  { nextIndex := 0,
    results := List.replicate items.length none,
    runners := List.replicate (min limit items.length) RunnerState.idle }

/-- Small-step semantics of `runLimited` (ga.ts lines 426-434) under
single-threaded cooperative scheduling: any runner may be resumed at each
step.  `claim` and `exit` are the synchronous block from reading
`nextIndex` through the bounds check (no `await` intervenes, so the block
is atomic); `finish` is the resumption after `await worker(...)`, writing
the worker's deterministic result `f item index` into the claimed slot
and returning to the loop top. -/
inductive RLStep {T R : Type} (items : List T) (f : T → Nat → R) :
    RLState R → RLState R → Prop where
  | claim (s : RLState R) (k : Nat) (hk : s.runners[k]? = some RunnerState.idle)
      (hlt : s.nextIndex < items.length) :
      RLStep items f s
        { nextIndex := s.nextIndex + 1, results := s.results,
          runners := s.runners.set k (RunnerState.waiting s.nextIndex) }
  | exit (s : RLState R) (k : Nat) (hk : s.runners[k]? = some RunnerState.idle)
      (hge : items.length ≤ s.nextIndex) :
      RLStep items f s
        { nextIndex := s.nextIndex + 1, results := s.results,
          runners := s.runners.set k RunnerState.done }
  | finish (s : RLState R) (k : Nat) (i : Nat) (a : T)
      (hk : s.runners[k]? = some (RunnerState.waiting i))
      (ha : items[i]? = some a) :
      RLStep items f s
        { nextIndex := s.nextIndex, results := s.results.set i (some (f a i)),
          runners := s.runners.set k RunnerState.idle }

/-! ## Helper lemmas about the date and series machinery -/

theorem windowDays_cases (wk : String) (d : Nat) (h : WINDOW_DAYS wk = some d) :
    d = 1 ∨ d = 7 ∨ d = 28 := by
  unfold WINDOW_DAYS at h
  split_ifs at h <;> simp_all

theorem buildSeries_series_eq (cr pr : DateRange) (crows prows : List SeriesRow)
    (days : Nat) :
    (buildSeries cr pr crows prows days).series =
      (List.range days).map (fun (i : Nat) =>
        { date := cr.startDate + (i : Int),
          current := (seriesMapGet crows (cr.startDate + (i : Int))).getD 0,
          previous := (seriesMapGet prows (pr.startDate + (i : Int))).getD 0 }) := by
  have h : (buildDateList cr.startDate days).zip (buildDateList pr.startDate days)
      = (List.range days).map (fun (i : Nat) => (cr.startDate + (i : Int), pr.startDate + (i : Int))) := by
    simp only [buildDateList, addDays]
    exact List.zip_map' (fun (i : Nat) => cr.startDate + (i : Int))
      (fun (i : Nat) => pr.startDate + (i : Int)) (List.range days)
  simp only [buildSeries]
  rw [h, List.map_map]
  rfl

theorem foldl_add_map_sum {α : Type} (g : α → Int) (l : List α) (c : Int) :
    l.foldl (fun sum x => sum + g x) c = c + (l.map g).sum := by
  induction l generalizing c with
  | nil => simp
  | cons a t ih => simp [List.foldl_cons, ih, List.sum_cons]; ring

theorem buildSeries_totals (cr pr : DateRange) (crows prows : List SeriesRow)
    (days : Nat) :
    (buildSeries cr pr crows prows days).currentTotal =
      (((buildSeries cr pr crows prows days).series).map (fun p => p.current)).sum ∧
    (buildSeries cr pr crows prows days).previousTotal =
      (((buildSeries cr pr crows prows days).series).map (fun p => p.previous)).sum := by
  constructor <;>
    simp only [buildSeries, foldl_add_map_sum, zero_add]


theorem seriesMapGet_singleton_none (r : SeriesRow) (d : Int) (h : r.date ≠ d) :
    List.find? (fun row => row.date == d) [r] = none := by
  have hbeq : (r.date == d) = false := beq_eq_false_iff_ne.mpr h
  simp [List.find?, hbeq]

theorem seriesMapGet_middle (l1 l2 : List SeriesRow) (r : SeriesRow) (d : Int)
    (h : r.date ≠ d) :
    seriesMapGet (l1 ++ r :: l2) d = seriesMapGet (l1 ++ l2) d := by
  unfold seriesMapGet
  rw [List.reverse_append, List.reverse_cons, List.append_assoc,
    List.find?_append, List.find?_append, List.reverse_append, List.find?_append,
    seriesMapGet_singleton_none r d h, Option.none_or]

theorem buildSeries_eta (cr pr : DateRange) (crows prows : List SeriesRow) (days : Nat) :
    buildSeries cr pr crows prows days =
      { series := (buildSeries cr pr crows prows days).series,
        currentTotal :=
          ((buildSeries cr pr crows prows days).series).foldl (fun sum p => sum + p.current) 0,
        previousTotal :=
          ((buildSeries cr pr crows prows days).series).foldl (fun sum p => sum + p.previous) 0 } :=
  rfl

theorem mem_buildDateList_of_lt (start : Int) (days : Nat) (i : Nat) (hi : i < days) :
    start + (i : Int) ∈ buildDateList start days := by
  simp only [buildDateList, addDays, List.mem_map]
  exact ⟨i, List.mem_range.2 hi, rfl⟩

theorem buildSeries_congr_of_lookup (cr pr : DateRange)
    (c1 c2 p1 p2 : List SeriesRow) (days : Nat)
    (hc : ∀ d ∈ buildDateList cr.startDate days, seriesMapGet c1 d = seriesMapGet c2 d)
    (hp : ∀ d ∈ buildDateList pr.startDate days, seriesMapGet p1 d = seriesMapGet p2 d) :
    buildSeries cr pr c1 p1 days = buildSeries cr pr c2 p2 days := by
  have hs : (buildSeries cr pr c1 p1 days).series = (buildSeries cr pr c2 p2 days).series := by
    rw [buildSeries_series_eq, buildSeries_series_eq]
    apply List.map_congr_left
    intro i hi
    rw [hc _ (mem_buildDateList_of_lt cr.startDate days i (List.mem_range.1 hi)),
      hp _ (mem_buildDateList_of_lt pr.startDate days i (List.mem_range.1 hi))]
  rw [buildSeries_eta cr pr c1 p1 days, buildSeries_eta cr pr c2 p2 days, hs]

/-! ## Claim theorems: date ranges, window keys, series alignment -/

/-- C5: for every recognized window key and every today, the current and
previous ranges are each exactly the window's number of calendar days
long, the current range ends on the UTC day before today, the previous
range ends exactly one day before the current range starts, and the two
ranges are contiguous, non-overlapping and of equal length. -/
theorem spec_C5 (wk : String) (days : Nat) (today : Int) (r : DateRanges)
    (hdays : WINDOW_DAYS wk = some days)
    (hr : getDateRanges wk today = some r) :
    r.current.endDate = today - 1 ∧
    r.current.endDate - r.current.startDate + 1 = (days : Int) ∧
    r.previous.endDate - r.previous.startDate + 1 = (days : Int) ∧
    r.previous.endDate = r.current.startDate - 1 ∧
    r.previous.endDate < r.current.startDate ∧
    r.current.startDate ≤ r.current.endDate ∧
    r.previous.startDate ≤ r.previous.endDate := by
  have h1 : 1 ≤ days := by
    rcases windowDays_cases wk days hdays with h | h | h <;> omega
  have hr2 : rangesForDays days today = r := by
    unfold getDateRanges at hr
    rw [hdays] at hr
    simpa using hr
  subst hr2
  simp only [rangesForDays, addDays]
  omega

theorem spec_C5_witness :
    WINDOW_DAYS "d7" = some 7 ∧
    getDateRanges "d7" 20000 = some ⟨⟨19993, 19999⟩, ⟨19986, 19992⟩⟩ ∧
    (⟨⟨19993, 19999⟩, ⟨19986, 19992⟩⟩ : DateRanges).current.endDate = 20000 - 1 :=
  ⟨by decide, by decide,
    (spec_C5 "d7" 7 20000 ⟨⟨19993, 19999⟩, ⟨19986, 19992⟩⟩ (by decide) (by decide)).1⟩

/-- C7: the window-length mapping.  The fixed `WINDOW_DAYS` record maps
only `d1`, `d7` and `d28` (to 1, 7 and 28 days); both routes default an
unrecognized key to `d7`; but the detail route accepts `d90`, `d180` and
`d365` and passes them through, for which `WINDOW_DAYS` has no entry, so
the date-range calculator has no window length there (the JS code reads
`undefined` and builds `NaN` dates) — the detail view does not actually
support those three keys with their full lengths. -/
theorem spec_C7 :
    (WINDOW_DAYS "d1" = some 1 ∧ WINDOW_DAYS "d7" = some 7 ∧ WINDOW_DAYS "d28" = some 28) ∧
    (WINDOW_DAYS "d90" = none ∧ WINDOW_DAYS "d180" = none ∧ WINDOW_DAYS "d365" = none) ∧
    (dashboardRouteWindowKey none = "d7" ∧ dashboardRouteWindowKey (some "d28") = "d28" ∧
      dashboardRouteWindowKey (some "d90") = "d7" ∧ dashboardRouteWindowKey (some "bogus") = "d7") ∧
    (detailRouteWindowKey (some "d90") = "d90" ∧ detailRouteWindowKey (some "d180") = "d180" ∧
      detailRouteWindowKey (some "d365") = "d365" ∧ detailRouteWindowKey (some "bogus") = "d7" ∧
      detailRouteWindowKey none = "d7") ∧
    (∀ today : Int, getDateRanges "d90" today = none) :=
  ⟨by decide, by decide, by decide, by decide, fun _ => rfl⟩

/-- C4: `buildSeries` returns exactly `days` points; point `i` carries the
`i`-th calendar day of the current range, the current value recorded for
that day (0 when absent) and the previous value recorded for the `i`-th
day of the previous range (0 when absent) — alignment is by offset.  In
particular a 7-day window with a single current row of value 30 on day 1
yields 7 points with current 30 on day 1 and 0 on days 2-7. -/
theorem spec_C4 (cr pr : DateRange) (currentRows previousRows : List SeriesRow)
    (days : Nat) (_hdays : 1 ≤ days) :
    ((buildSeries cr pr currentRows previousRows days).series.length = days ∧
      ∀ i : Nat, i < days →
        (buildSeries cr pr currentRows previousRows days).series[i]? =
          some { date := cr.startDate + (i : Int),
                 current := (seriesMapGet currentRows (cr.startDate + (i : Int))).getD 0,
                 previous := (seriesMapGet previousRows (pr.startDate + (i : Int))).getD 0 }) ∧
    (buildSeries ⟨0, 6⟩ ⟨-7, -1⟩ [⟨0, 30⟩] [] 7).series =
      [⟨0, 30, 0⟩, ⟨1, 0, 0⟩, ⟨2, 0, 0⟩, ⟨3, 0, 0⟩, ⟨4, 0, 0⟩, ⟨5, 0, 0⟩, ⟨6, 0, 0⟩] := by
  refine ⟨⟨?_, ?_⟩, by decide⟩
  · rw [buildSeries_series_eq]
    simp
  · intro i hi
    rw [buildSeries_series_eq, List.getElem?_map, List.getElem?_range hi]
    rfl

theorem spec_C4_witness :
    (buildSeries ⟨0, 6⟩ ⟨-7, -1⟩ [⟨0, 30⟩] [] 7).series.length = 7 :=
  (spec_C4 ⟨0, 6⟩ ⟨-7, -1⟩ [⟨0, 30⟩] [] 7 (by decide)).1.1

/-- C10: a raw row dated outside the corresponding range's calendar days
has no effect at all — removing it leaves the series and both totals
unchanged, so the totals sum only values dated inside the window. -/
theorem spec_C10 (cr pr : DateRange) (days : Nat)
    (rows l1 l2 : List SeriesRow) (r : SeriesRow) :
    (r.date ∉ buildDateList cr.startDate days →
      buildSeries cr pr (l1 ++ r :: l2) rows days = buildSeries cr pr (l1 ++ l2) rows days) ∧
    (r.date ∉ buildDateList pr.startDate days →
      buildSeries cr pr rows (l1 ++ r :: l2) days = buildSeries cr pr rows (l1 ++ l2) days) := by
  constructor
  · intro hout
    apply buildSeries_congr_of_lookup
    · intro d hd
      exact seriesMapGet_middle l1 l2 r d (fun he => hout (he ▸ hd))
    · intro d _
      rfl
  · intro hout
    apply buildSeries_congr_of_lookup
    · intro d _
      rfl
    · intro d hd
      exact seriesMapGet_middle l1 l2 r d (fun he => hout (he ▸ hd))

theorem spec_C10_witness :
    ((⟨99, 5⟩ : SeriesRow).date ∉ buildDateList 0 7) ∧
    buildSeries ⟨0, 6⟩ ⟨-7, -1⟩ ([⟨0, 30⟩] ++ ⟨99, 5⟩ :: []) [] 7 =
      buildSeries ⟨0, 6⟩ ⟨-7, -1⟩ ([⟨0, 30⟩] ++ []) [] 7 :=
  ⟨by decide, (spec_C10 ⟨0, 6⟩ ⟨-7, -1⟩ 7 [] [⟨0, 30⟩] [] ⟨99, 5⟩).1 (by decide)⟩

/-! ## fetchNewUsers: loop characterization, C3 and C2 -/

/-- The delta/pct formula shared by `fetchNewUsers` (ga.ts lines 354-357)
and the detail summary (lines 616-627): `delta = current - previous`,
`pct` null exactly when `previous` is zero and `delta / previous`
otherwise. -/
def mkDelta (current previous : Int) : NewUsersDelta :=
  { current := current, previous := previous, delta := current - previous,
    pct := if previous = 0 then none
           else some (((current - previous : Int) : ℚ) / (previous : ℚ)) }

theorem detailSummary_eq_mkDelta (c p : Int) : detailSummary c p = mkDelta c p := rfl

/-- The last row of `rows` carrying the given date-range tag: the row
whose assignment survives the `fetchNewUsers` loop. -/
def lastTagMatch (lbl : String) (rows : List ReportRow) : Option ReportRow :=
  rows.reverse.find? (fun r => rowLabel r == some lbl)

theorem lastTagMatch_append (lbl : String) (t : List ReportRow) (r : ReportRow) :
    lastTagMatch lbl (t ++ [r]) =
      if rowLabel r = some lbl then some r else lastTagMatch lbl t := by
  unfold lastTagMatch
  rw [List.reverse_append]
  simp only [List.reverse_cons, List.reverse_nil, List.nil_append, List.singleton_append]
  by_cases h : rowLabel r = some lbl
  · rw [List.find?_cons_of_pos _ (by simp [h]), if_pos h]
  · rw [List.find?_cons_of_neg _ (by simp [h]), if_neg h]

theorem newUsersLoop_eq (rows : List ReportRow) :
    newUsersLoop rows =
      ((lastTagMatch "date_range_0" rows).elim 0 rowValue,
       (lastTagMatch "date_range_1" rows).elim 0 rowValue) := by
  unfold newUsersLoop
  induction rows using List.reverseRecOn with
  | nil => simp [lastTagMatch]
  | append_singleton t r ih =>
    rw [List.foldl_append, List.foldl_cons, List.foldl_nil, ih,
      lastTagMatch_append, lastTagMatch_append]
    by_cases hr0 : rowLabel r = some "date_range_0"
    · have hr1 : ¬ rowLabel r = some "date_range_1" := by simp [hr0]
      simp [hr0, hr1]
    · by_cases hr1 : rowLabel r = some "date_range_1" <;> simp [hr0, hr1]

theorem seriesMapGet_cons_ne (r : SeriesRow) (rest : List SeriesRow) (d : Int)
    (h : r.date ≠ d) :
    seriesMapGet (r :: rest) d = seriesMapGet rest d := by
  simpa using seriesMapGet_middle [] rest r d h

theorem seriesMapGet_cons_self (r : SeriesRow) (rest : List SeriesRow)
    (h : ∀ x ∈ rest, x.date ≠ r.date) :
    seriesMapGet (r :: rest) r.date = some r.value := by
  unfold seriesMapGet
  rw [List.reverse_cons, List.find?_append]
  have h2 : List.find? (fun row => row.date == r.date) rest.reverse = none :=
    List.find?_eq_none.2 (fun x hx => by
      simpa using h x (List.mem_reverse.1 hx))
  rw [h2, Option.none_or, List.find?_cons_of_pos _ (by simp)]
  rfl

theorem sum_seriesMapGet (rows : List SeriesRow) : ∀ (dates : List Int),
    dates.Nodup → (rows.map (fun r => r.date)).Nodup →
    (∀ r ∈ rows, r.date ∈ dates) →
    (dates.map (fun d => (seriesMapGet rows d).getD 0)).sum
      = (rows.map (fun r => r.value)).sum := by
  induction rows with
  | nil =>
    intro dates _ _ _
    simp only [List.map_nil, List.sum_nil]
    refine List.sum_eq_zero ?_
    intro x hx
    rcases List.mem_map.1 hx with ⟨d, _, hd⟩
    simp [seriesMapGet, List.find?] at hd
    omega
  | cons r rest ih =>
    intro dates hnd hrnd hmem
    have hpair : (∀ x ∈ rest, ¬ x.date = r.date) ∧ (rest.map (fun x => x.date)).Nodup := by
      simpa using hrnd
    have hrest_nd : (rest.map (fun x => x.date)).Nodup := hpair.2
    have hmem_r : r.date ∈ dates := hmem r (List.mem_cons_self r rest)
    have hrest_ne : ∀ x ∈ rest, x.date ≠ r.date := hpair.1
    have hperm : dates.Perm (r.date :: dates.erase r.date) := List.perm_cons_erase hmem_r
    rw [(hperm.map (fun d => (seriesMapGet (r :: rest) d).getD 0)).sum_eq,
      List.map_cons, List.sum_cons, seriesMapGet_cons_self r rest hrest_ne]
    have hcong : (dates.erase r.date).map (fun d => (seriesMapGet (r :: rest) d).getD 0)
        = (dates.erase r.date).map (fun d => (seriesMapGet rest d).getD 0) := by
      refine List.map_congr_left ?_
      intro d hd
      have hne : d ≠ r.date := ((hnd.mem_erase_iff).1 hd).1
      rw [seriesMapGet_cons_ne r rest d (fun he => hne he.symm)]
    rw [hcong, ih (dates.erase r.date) (hnd.erase r.date) hrest_nd ?_]
    · simp [Option.getD]
    · intro x hx
      exact (hnd.mem_erase_iff).2
        ⟨fun he => hrest_ne x hx he, hmem x (List.mem_cons_of_mem r hx)⟩

/-- C3: the `fetchNewUsers` row policy.  Zero rows give (0, 0) rather than
an error; exactly one row with no dimension values and at least two
metric values is read positionally as `[current, previous]`; in every
other case the last `date_range_0` row sets `current` and the last
`date_range_1` row sets `previous`, other labels change nothing, and an
unmatched bucket stays 0.  The result always satisfies
`delta = current - previous` and the `pct` nullability policy. -/
theorem spec_C3 :
    (∀ resp : RunReportResponse, resp.rows.getD [] = [] →
        fetchNewUsers resp = { current := 0, previous := 0, delta := 0, pct := none }) ∧
    (∀ (resp : RunReportResponse) (row : ReportRow), resp.rows.getD [] = [row] →
        (row.dimensionValues.getD []).isEmpty = true →
        2 ≤ (row.metricValues.getD []).length →
        fetchNewUsers resp =
          mkDelta (((row.metricValues.getD [])[0]?.bind (fun c => c.value)).getD 0)
                  (((row.metricValues.getD [])[1]?.bind (fun c => c.value)).getD 0)) ∧
    (∀ resp : RunReportResponse, resp.rows.getD [] ≠ [] →
        (¬ ∃ row, resp.rows.getD [] = [row] ∧ (row.dimensionValues.getD []).isEmpty = true ∧
            2 ≤ (row.metricValues.getD []).length) →
        fetchNewUsers resp =
          mkDelta ((lastTagMatch "date_range_0" (resp.rows.getD [])).elim 0 rowValue)
                  ((lastTagMatch "date_range_1" (resp.rows.getD [])).elim 0 rowValue)) ∧
    (∀ resp : RunReportResponse,
        (fetchNewUsers resp).delta = (fetchNewUsers resp).current - (fetchNewUsers resp).previous ∧
        ((fetchNewUsers resp).pct = none ↔ (fetchNewUsers resp).previous = 0) ∧
        ((fetchNewUsers resp).previous ≠ 0 →
          (fetchNewUsers resp).pct =
            some (((fetchNewUsers resp).delta : ℚ) / ((fetchNewUsers resp).previous : ℚ)))) := by
  have hcons : ∀ (row : ReportRow) (t : List ReportRow),
      fetchNewUsersRows (row :: t)
        = mkDelta (flatRowOverride (row :: t) (newUsersLoop (row :: t))).1
                  (flatRowOverride (row :: t) (newUsersLoop (row :: t))).2 :=
    fun _ _ => rfl
  refine ⟨?_, ?_, ?_, ?_⟩
  · intro resp h
    unfold fetchNewUsers
    rw [h]
    decide
  · intro resp row hrows hdim hlen
    unfold fetchNewUsers
    rw [hrows, hcons]
    have hover : flatRowOverride [row] (newUsersLoop [row])
        = (((row.metricValues.getD [])[0]?.bind (fun c => c.value)).getD 0,
           ((row.metricValues.getD [])[1]?.bind (fun c => c.value)).getD 0) := by
      simp [flatRowOverride, hdim, hlen]
    rw [hover]
  · intro resp hne hflat
    unfold fetchNewUsers
    rcases hrows : resp.rows.getD [] with _ | ⟨row, t⟩
    · exact absurd hrows hne
    · have hover : flatRowOverride (row :: t) (newUsersLoop (row :: t))
          = newUsersLoop (row :: t) := by
        rcases t with _ | ⟨row2, t2⟩
        · unfold flatRowOverride
          by_cases hdim : (row.dimensionValues.getD []).isEmpty = true
          · have hlen : ¬ 2 ≤ (row.metricValues.getD []).length := by
              intro hlen
              exact hflat ⟨row, hrows, hdim, hlen⟩
            simp [hdim, hlen]
          · simp [hdim]
        · rfl
      rw [hcons, hover, newUsersLoop_eq]
  · intro resp
    unfold fetchNewUsers fetchNewUsersRows
    refine ⟨rfl, ?_, ?_⟩
    · by_cases h : (if (resp.rows.getD []).isEmpty then ((0 : Int), (0 : Int))
          else flatRowOverride (resp.rows.getD []) (newUsersLoop (resp.rows.getD []))).2 = 0
      · simp [h]
      · simp [h]
    · intro h
      simp only at h ⊢
      rw [if_neg h]

def wrow0 : ReportRow :=
  { dimensionValues := some [{ value := some "date_range_0" }],
    metricValues := some [{ value := some (7 : Int) }] }

theorem spec_C3_witness :
    fetchNewUsers { rows := some [wrow0] } =
      mkDelta ((lastTagMatch "date_range_0" [wrow0]).elim 0 rowValue)
              ((lastTagMatch "date_range_1" [wrow0]).elim 0 rowValue) :=
  spec_C3.2.2.1 { rows := some [wrow0] } (by decide)
    (fun hcon => by
      obtain ⟨row, hrow, hdim, _⟩ := hcon
      have hr : wrow0 = row := by
        have h2 := congrArg List.head? hrow
        simpa using h2
      rw [← hr] at hdim
      exact absurd hdim (by decide))

theorem buildDateList_nodup (s : Int) (days : Nat) : (buildDateList s days).Nodup := by
  unfold buildDateList addDays
  refine List.Nodup.map ?_ (List.nodup_range days)
  intro a b h
  have h2 : s + (a : Int) = s + (b : Int) := h
  omega

theorem buildSeries_total_as_sum (cr pr : DateRange)
    (currentRows previousRows : List SeriesRow) (days : Nat) :
    (buildSeries cr pr currentRows previousRows days).currentTotal
        = ((buildDateList cr.startDate days).map
            (fun d => (seriesMapGet currentRows d).getD 0)).sum ∧
    (buildSeries cr pr currentRows previousRows days).previousTotal
        = ((buildDateList pr.startDate days).map
            (fun d => (seriesMapGet previousRows d).getD 0)).sum := by
  have ht := buildSeries_totals cr pr currentRows previousRows days
  constructor
  · rw [ht.1, buildSeries_series_eq, List.map_map]
    unfold buildDateList addDays
    rw [List.map_map]
    rfl
  · rw [ht.2, buildSeries_series_eq, List.map_map]
    unfold buildDateList addDays
    rw [List.map_map]
    rfl

/-- A summary-mode response row tagged with a date-range bucket label and
carrying one metric value, the shape the GA Data API returns for the
two-range no-dimension request of ga.ts lines 316-319. -/
def tagRow (lbl : String) (v : Int) : ReportRow :=
  { dimensionValues := some [{ value := some lbl }],
    metricValues := some [{ value := some v }] }

theorem fetchNewUsers_tagRows (cs ps : Int) :
    fetchNewUsers { rows := some [tagRow "date_range_0" cs, tagRow "date_range_1" ps] }
      = mkDelta cs ps := by
  have h1 : fetchNewUsers { rows := some [tagRow "date_range_0" cs, tagRow "date_range_1" ps] }
      = mkDelta (newUsersLoop [tagRow "date_range_0" cs, tagRow "date_range_1" ps]).1
                (newUsersLoop [tagRow "date_range_0" cs, tagRow "date_range_1" ps]).2 := rfl
  rw [h1, newUsersLoop_eq]
  congr 1

/-- C2: the summary the detail assembler derives from the aligned series
(totals, delta, pct from the series sums) coincides with what summary
mode (`fetchNewUsers`) computes for the same ranges when the summary
report carries, for each range bucket, the sum of the same raw daily
rows — i.e. when the remote API answers both request shapes from
identical underlying data (rows dated inside the window, one row per
day). -/
theorem spec_C2 (days : Nat) (cr pr : DateRange)
    (currentRows previousRows : List SeriesRow)
    (hcn : (currentRows.map (fun r => r.date)).Nodup)
    (hcm : ∀ r ∈ currentRows, r.date ∈ buildDateList cr.startDate days)
    (hpn : (previousRows.map (fun r => r.date)).Nodup)
    (hpm : ∀ r ∈ previousRows, r.date ∈ buildDateList pr.startDate days) :
    detailSummary (buildSeries cr pr currentRows previousRows days).currentTotal
        (buildSeries cr pr currentRows previousRows days).previousTotal
      = fetchNewUsers
          { rows := some
              [ tagRow "date_range_0" ((currentRows.map (fun r => r.value)).sum),
                tagRow "date_range_1" ((previousRows.map (fun r => r.value)).sum) ] } := by
  have htot := buildSeries_total_as_sum cr pr currentRows previousRows days
  have hct : (buildSeries cr pr currentRows previousRows days).currentTotal
      = (currentRows.map (fun r => r.value)).sum := by
    rw [htot.1]
    exact sum_seriesMapGet currentRows _ (buildDateList_nodup cr.startDate days) hcn hcm
  have hpt : (buildSeries cr pr currentRows previousRows days).previousTotal
      = (previousRows.map (fun r => r.value)).sum := by
    rw [htot.2]
    exact sum_seriesMapGet previousRows _ (buildDateList_nodup pr.startDate days) hpn hpm
  rw [detailSummary_eq_mkDelta, hct, hpt, fetchNewUsers_tagRows]

theorem spec_C2_witness :
    detailSummary (buildSeries ⟨0, 6⟩ ⟨-7, -1⟩ [⟨0, 30⟩] [] 7).currentTotal
        (buildSeries ⟨0, 6⟩ ⟨-7, -1⟩ [⟨0, 30⟩] [] 7).previousTotal
      = fetchNewUsers
          { rows := some
              [ tagRow "date_range_0" (([⟨0, 30⟩] : List SeriesRow).map (fun r => r.value)).sum,
                tagRow "date_range_1" (([] : List SeriesRow).map (fun r => r.value)).sum ] } :=
  spec_C2 7 ⟨0, 6⟩ ⟨-7, -1⟩ [⟨0, 30⟩] [] (by decide) (by decide) (by decide) (by decide)

/-! ## Dashboard pipeline lemmas -/

theorem withErrorMessage_ne_empty (e : String) : withErrorMessage e ≠ "" := by
  unfold withErrorMessage
  split_ifs with h
  · decide
  · exact h

theorem errTruthy_some (s : String) : errTruthy (some s) = !(s == "") := rfl

theorem errTruthy_withErrorMessage (e : String) :
    errTruthy (some (withErrorMessage e)) = true := by
  rw [errTruthy_some, beq_eq_false_iff_ne.mpr (withErrorMessage_ne_empty e)]
  rfl

theorem dedupeLoop_cons_none (p : DashboardProperty) (rest : List DashboardProperty)
    (seen : List String) (hu : p.defaultUri = none) :
    dedupeLoop (p :: rest) seen = p :: dedupeLoop rest seen := by
  simp only [dedupeLoop, hu]

theorem dedupeLoop_cons_empty (p : DashboardProperty) (rest : List DashboardProperty)
    (seen : List String) (hu : p.defaultUri = some "") :
    dedupeLoop (p :: rest) seen = p :: dedupeLoop rest seen := by
  simp only [dedupeLoop, hu]
  rw [if_pos trivial]

theorem dedupeLoop_cons_falsy (p : DashboardProperty) (rest : List DashboardProperty)
    (seen : List String) (hu : uriFalsy p.defaultUri = true) :
    dedupeLoop (p :: rest) seen = p :: dedupeLoop rest seen := by
  cases h : p.defaultUri with
  | none => exact dedupeLoop_cons_none p rest seen h
  | some u =>
    rw [h] at hu
    have he : u = "" := eq_of_beq hu
    subst he
    exact dedupeLoop_cons_empty p rest seen h

theorem uriFalsy_false_iff (o : Option String) :
    uriFalsy o = false ↔ ∃ u, o = some u ∧ u ≠ "" := by
  cases o with
  | none => simp [uriFalsy]
  | some u => simp [uriFalsy]

theorem dedupeLoop_cons_seen (p : DashboardProperty) (rest : List DashboardProperty)
    (seen : List String) (u : String) (hu : p.defaultUri = some u) (hne : u ≠ "")
    (hs : seen.contains (normalizeUri u) = true) :
    dedupeLoop (p :: rest) seen = dedupeLoop rest seen := by
  simp only [dedupeLoop, hu]
  rw [if_neg hne, if_pos hs]

theorem dedupeLoop_cons_new (p : DashboardProperty) (rest : List DashboardProperty)
    (seen : List String) (u : String) (hu : p.defaultUri = some u) (hne : u ≠ "")
    (hs : ¬ seen.contains (normalizeUri u) = true) :
    dedupeLoop (p :: rest) seen = p :: dedupeLoop rest (normalizeUri u :: seen) := by
  simp only [dedupeLoop, hu]
  rw [if_neg hne, if_neg hs]

theorem dedupeLoop_sublist (l : List DashboardProperty) :
    ∀ seen, (dedupeLoop l seen).Sublist l := by
  induction l with
  | nil =>
    intro seen
    simp [dedupeLoop]
  | cons p rest ih =>
    intro seen
    cases hf : uriFalsy p.defaultUri with
    | true =>
      rw [dedupeLoop_cons_falsy p rest seen hf]
      exact (ih seen).cons₂ p
    | false =>
      obtain ⟨u, hu, hne⟩ := (uriFalsy_false_iff _).1 hf
      by_cases hs : seen.contains (normalizeUri u) = true
      · rw [dedupeLoop_cons_seen p rest seen u hu hne hs]
        exact (ih seen).cons p
      · rw [dedupeLoop_cons_new p rest seen u hu hne hs]
        exact (ih (normalizeUri u :: seen)).cons₂ p

theorem mem_dedupeLoop_of_falsy (p : DashboardProperty) (l : List DashboardProperty)
    (hu : uriFalsy p.defaultUri = true) :
    ∀ seen, p ∈ l → p ∈ dedupeLoop l seen := by
  induction l with
  | nil =>
    intro seen hp
    simp at hp
  | cons q rest ih =>
    intro seen hp
    rcases List.mem_cons.1 hp with hq | hp2
    · subst hq
      rw [dedupeLoop_cons_falsy p rest seen hu]
      exact List.mem_cons_self p _
    · cases hq : uriFalsy q.defaultUri with
      | true =>
        rw [dedupeLoop_cons_falsy q rest seen hq]
        exact List.mem_cons_of_mem q (ih seen hp2)
      | false =>
        obtain ⟨u, hu2, hne⟩ := (uriFalsy_false_iff _).1 hq
        by_cases hs : seen.contains (normalizeUri u) = true
        · rw [dedupeLoop_cons_seen q rest seen u hu2 hne hs]
          exact ih seen hp2
        · rw [dedupeLoop_cons_new q rest seen u hu2 hne hs]
          exact List.mem_cons_of_mem q (ih (normalizeUri u :: seen) hp2)

theorem dedupeLoop_filter_sub (fp : DashboardProperty → Bool)
    (hfp : ∀ q, fp q = true → uriFalsy q.defaultUri = true) (l : List DashboardProperty) :
    ∀ seen, (dedupeLoop l seen).filter fp = l.filter fp := by
  induction l with
  | nil =>
    intro seen
    rfl
  | cons p rest ih =>
    intro seen
    cases hf : uriFalsy p.defaultUri with
    | true =>
      rw [dedupeLoop_cons_falsy p rest seen hf, List.filter_cons, List.filter_cons,
        ih seen]
    | false =>
      have hfp2 : fp p = false := by
        cases hq : fp p with
        | false => rfl
        | true =>
          have h2 := hfp p hq
          rw [hf] at h2
          simp at h2
      obtain ⟨u, hu, hne⟩ := (uriFalsy_false_iff _).1 hf
      by_cases hs : seen.contains (normalizeUri u) = true
      · rw [dedupeLoop_cons_seen p rest seen u hu hne hs, List.filter_cons, hfp2]
        simp only [Bool.false_eq_true, if_false]
        exact ih seen
      · rw [dedupeLoop_cons_new p rest seen u hu hne hs, List.filter_cons,
          List.filter_cons, hfp2]
        simp only [Bool.false_eq_true, if_false]
        exact ih (normalizeUri u :: seen)

theorem dedupeLoop_filter_none (l : List DashboardProperty) :
    ∀ seen, (dedupeLoop l seen).filter (fun q => q.defaultUri.isNone)
      = l.filter (fun q => q.defaultUri.isNone) :=
  dedupeLoop_filter_sub (fun q => q.defaultUri.isNone)
    (by
      intro q h
      have h2 : q.defaultUri.isNone = true := h
      cases hq : q.defaultUri with
      | none => rfl
      | some u =>
        rw [hq] at h2
        simp at h2)
    l

theorem dedupeLoop_filter_falsy (l : List DashboardProperty) :
    ∀ seen, (dedupeLoop l seen).filter (fun q => uriFalsy q.defaultUri)
      = l.filter (fun q => uriFalsy q.defaultUri) :=
  dedupeLoop_filter_sub (fun q => uriFalsy q.defaultUri) (fun _ h => h) l

theorem mem_dedupeLoop_domain (l : List DashboardProperty) :
    ∀ seen q v, q ∈ dedupeLoop l seen → q.defaultUri = some v → v ≠ "" →
      seen.contains (normalizeUri v) = false := by
  induction l with
  | nil =>
    intro seen q v hq _ _
    simp [dedupeLoop] at hq
  | cons p rest ih =>
    intro seen q v hq hv hvne
    cases hf : uriFalsy p.defaultUri with
    | true =>
      rw [dedupeLoop_cons_falsy p rest seen hf] at hq
      rcases List.mem_cons.1 hq with hqp | hq2
      · subst hqp
        rw [hv] at hf
        exact absurd (eq_of_beq hf) hvne
      · exact ih seen q v hq2 hv hvne
    | false =>
      obtain ⟨u, hu, hne⟩ := (uriFalsy_false_iff _).1 hf
      by_cases hs : seen.contains (normalizeUri u) = true
      · rw [dedupeLoop_cons_seen p rest seen u hu hne hs] at hq
        exact ih seen q v hq hv hvne
      · rw [dedupeLoop_cons_new p rest seen u hu hne hs] at hq
        rcases List.mem_cons.1 hq with hqp | hq2
        · subst hqp
          rw [hu] at hv
          have huv : u = v := by injection hv
          subst huv
          exact Bool.eq_false_iff.mpr hs
        · have h2 := ih (normalizeUri u :: seen) q v hq2 hv hvne
          rw [List.contains_cons] at h2
          exact (Bool.or_eq_false_iff.1 h2).2

theorem dedupeLoop_pairwise_domains (l : List DashboardProperty) :
    ∀ seen, (dedupeLoop l seen).Pairwise
      (fun a b => ∀ u v, a.defaultUri = some u → b.defaultUri = some v →
        u ≠ "" → v ≠ "" → normalizeUri u ≠ normalizeUri v) := by
  induction l with
  | nil =>
    intro seen
    simp [dedupeLoop]
  | cons p rest ih =>
    intro seen
    cases hf : uriFalsy p.defaultUri with
    | true =>
      rw [dedupeLoop_cons_falsy p rest seen hf]
      refine List.Pairwise.cons ?_ (ih seen)
      intro b _ u v hpu _ hune _
      rw [hpu] at hf
      exact absurd (eq_of_beq hf) hune
    | false =>
      obtain ⟨u, hu, hne⟩ := (uriFalsy_false_iff _).1 hf
      by_cases hs : seen.contains (normalizeUri u) = true
      · rw [dedupeLoop_cons_seen p rest seen u hu hne hs]
        exact ih seen
      · rw [dedupeLoop_cons_new p rest seen u hu hne hs]
        refine List.Pairwise.cons ?_ (ih (normalizeUri u :: seen))
        intro b hb u2 v hpu2 hbv _ hvne heq
        rw [hu] at hpu2
        have hu2 : u = u2 := by injection hpu2
        have h2 := mem_dedupeLoop_domain rest (normalizeUri u :: seen) b v hb hbv hvne
        rw [List.contains_cons] at h2
        have h4 := (Bool.or_eq_false_iff.1 h2).1
        rw [← hu2] at heq
        rw [← heq] at h4
        simp at h4

/-- The Bool test "this row has normalized domain `d`". -/
def domMatches (q : DashboardProperty) (d : String) : Bool :=
  match q.defaultUri with
  | some v => normalizeUri v == d
  | none => false

theorem dedupeLoop_first_kept (l : List DashboardProperty) :
    ∀ seen d p, l.find? (fun q => domMatches q d) = some p →
      seen.contains d = false → p ∈ dedupeLoop l seen := by
  induction l with
  | nil =>
    intro seen d p hfind _
    simp at hfind
  | cons q rest ih =>
    intro seen d p hfind hseen
    by_cases hm : domMatches q d = true
    · rw [List.find?_cons_of_pos (p := fun x => domMatches x d) rest hm] at hfind
      have hqp : q = p := by injection hfind
      subst p
      cases hf : uriFalsy q.defaultUri with
      | true =>
        rw [dedupeLoop_cons_falsy q rest seen hf]
        exact List.mem_cons_self q _
      | false =>
        obtain ⟨v, hu, hvne⟩ := (uriFalsy_false_iff _).1 hf
        have hnd : normalizeUri v = d := by
          unfold domMatches at hm
          rw [hu] at hm
          exact beq_iff_eq.1 hm
        have hs : ¬ seen.contains (normalizeUri v) = true := by
          rw [hnd, hseen]
          simp
        rw [dedupeLoop_cons_new q rest seen v hu hvne hs]
        exact List.mem_cons_self q _
    · rw [List.find?_cons_of_neg (p := fun x => domMatches x d) rest hm] at hfind
      cases hf : uriFalsy q.defaultUri with
      | true =>
        rw [dedupeLoop_cons_falsy q rest seen hf]
        exact List.mem_cons_of_mem q (ih seen d p hfind hseen)
      | false =>
        obtain ⟨v, hu, hvne⟩ := (uriFalsy_false_iff _).1 hf
        have hnv : ¬ normalizeUri v = d := by
          intro hcon
          apply hm
          unfold domMatches
          rw [hu]
          exact beq_iff_eq.2 hcon
        by_cases hs : seen.contains (normalizeUri v) = true
        · rw [dedupeLoop_cons_seen q rest seen v hu hvne hs]
          exact ih seen d p hfind hseen
        · rw [dedupeLoop_cons_new q rest seen v hu hvne hs]
          refine List.mem_cons_of_mem q (ih (normalizeUri v :: seen) d p hfind ?_)
          rw [List.contains_cons, hseen,
            beq_eq_false_iff_ne.mpr (fun hc => hnv hc.symm)]
          rfl

instance : IsTotal DashboardProperty (fun a b => sortKey b ≤ sortKey a) :=
  ⟨fun a b => le_total (sortKey b) (sortKey a)⟩

instance : IsTrans DashboardProperty (fun a b => sortKey b ≤ sortKey a) :=
  ⟨fun _ _ _ hab hbc => le_trans hbc hab⟩

theorem sortedStage_pairwise (reportRows errorRows : List DashboardProperty) :
    (sortedStage reportRows errorRows).Pairwise (fun a b => sortKey b ≤ sortKey a) :=
  List.sorted_insertionSort (fun a b => sortKey b ≤ sortKey a) (reportRows ++ errorRows)

theorem sortedStage_perm (reportRows errorRows : List DashboardProperty) :
    (sortedStage reportRows errorRows).Perm (reportRows ++ errorRows) :=
  List.perm_insertionSort (fun a b => sortKey b ≤ sortKey a) (reportRows ++ errorRows)

theorem reportWorker_propertyId (world : RemoteWorld) (t : StreamResult) :
    (reportWorker world t).propertyId = t.summary.propertyId := by
  unfold reportWorker
  cases world.runReport t.summary.propertyId <;> rfl

theorem streamWorker_summary (world : RemoteWorld) (s : PropertySummary) (r : StreamResult)
    (h : streamWorker world s = some r) : r.summary = s := by
  unfold streamWorker at h
  cases hd : world.dataStreams s.propertyId with
  | error e =>
    simp only [hd] at h
    injection h with h2
    rw [← h2]
  | ok streams =>
    simp only [hd] at h
    cases hp : pickWebStream streams with
    | none =>
      simp only [hp] at h
      exact absurd h (by simp)
    | some ws =>
      simp only [hp] at h
      injection h with h2
      rw [← h2]

theorem mem_reportTargets_origin (rs : List (Option StreamResult)) (t : StreamResult)
    (h : t ∈ reportTargetsOf rs) :
    some t ∈ rs ∧ errTruthy t.error = false := by
  unfold reportTargetsOf at h
  rcases List.mem_filterMap.1 h with ⟨o, ho, heq⟩
  cases o with
  | none => simp at heq
  | some r =>
    by_cases he : errTruthy r.error = true
    · simp [he] at heq
    · have he2 : errTruthy r.error = false := Bool.eq_false_iff.mpr he
      simp [he2] at heq
      subst heq
      exact ⟨ho, he2⟩

theorem mem_reportTargets_intro (rs : List (Option StreamResult)) (t : StreamResult)
    (hin : some t ∈ rs) (he : errTruthy t.error = false) :
    t ∈ reportTargetsOf rs := by
  unfold reportTargetsOf
  refine List.mem_filterMap.2 ⟨some t, hin, ?_⟩
  simp [he]

theorem mem_errorRows_origin (rs : List (Option StreamResult)) (row : DashboardProperty)
    (h : row ∈ errorRowsOf rs) :
    ∃ r, some r ∈ rs ∧ errTruthy r.error = true ∧ row = streamErrorRow r := by
  unfold errorRowsOf at h
  rcases List.mem_filterMap.1 h with ⟨o, ho, heq⟩
  cases o with
  | none => simp at heq
  | some r =>
    by_cases he : errTruthy r.error = true
    · simp [he] at heq
      exact ⟨r, ho, he, heq.symm⟩
    · have he2 : errTruthy r.error = false := Bool.eq_false_iff.mpr he
      simp [he2] at heq

theorem mem_errorRows_intro (rs : List (Option StreamResult)) (r : StreamResult)
    (hin : some r ∈ rs) (he : errTruthy r.error = true) :
    streamErrorRow r ∈ errorRowsOf rs := by
  unfold errorRowsOf
  refine List.mem_filterMap.2 ⟨some r, hin, ?_⟩
  simp [he]

theorem filteredSummaries_not_blocklisted (env : Env) (summaries : List PropertySummary)
    (s : PropertySummary) (h : s ∈ filteredSummaries env summaries) :
    (getBlocklist env.blockRaw).contains s.propertyId = false := by
  unfold filteredSummaries at h
  have h2 := (List.mem_filter.1 h).2
  simpa using h2

theorem mem_mergedStage_origin (env : Env) (world : RemoteWorld)
    (summaries : List PropertySummary) (row : DashboardProperty)
    (h : row ∈ mergedStage env world summaries) :
    ∃ s ∈ filteredSummaries env summaries,
      row.propertyId = s.propertyId ∧ (streamWorker world s).isSome = true := by
  have hmem := (sortedStage_perm _ _).mem_iff.1 h
  rcases List.mem_append.1 hmem with hrep | herr
  · rcases List.mem_map.1 hrep with ⟨t, ht, heq⟩
    rcases mem_reportTargets_origin _ t ht with ⟨hin, _⟩
    rcases List.mem_map.1 hin with ⟨s, hs, heq2⟩
    refine ⟨s, hs, ?_, by rw [heq2]; rfl⟩
    rw [← heq, reportWorker_propertyId, streamWorker_summary world s t heq2]
  · rcases mem_errorRows_origin _ row herr with ⟨r, hin, _, heq⟩
    rcases List.mem_map.1 hin with ⟨s, hs, heq2⟩
    refine ⟨s, hs, ?_, by rw [heq2]; rfl⟩
    rw [heq]
    show r.summary.propertyId = s.propertyId
    rw [streamWorker_summary world s r heq2]

theorem getDashboardData_ok (env : Env) (world : RemoteWorld) (wk : String)
    (summaries : List PropertySummary)
    (h1 : world.auth = Except.ok ()) (h2 : world.accountSummaries = Except.ok summaries) :
    getDashboardData env world wk = Except.ok
      { updatedAt := env.nowIso, window := wk,
        properties := dedupeLoop (mergedStage env world summaries) [] } := by
  unfold getDashboardData
  rw [h1, h2]
  rfl

theorem getDashboardData_ok_inv (env : Env) (world : RemoteWorld) (wk : String)
    (resp : DashboardResponse)
    (h : getDashboardData env world wk = Except.ok resp) :
    world.auth = Except.ok () ∧ ∃ summaries, world.accountSummaries = Except.ok summaries ∧
      resp = { updatedAt := env.nowIso, window := wk,
               properties := dedupeLoop (mergedStage env world summaries) [] } := by
  unfold getDashboardData at h
  cases ha : world.auth with
  | error e =>
    rw [ha] at h
    exact absurd h (by simp [Bind.bind, Except.bind])
  | ok u =>
    cases u
    rw [ha] at h
    cases hc : world.accountSummaries with
    | error e =>
      rw [hc] at h
      exact absurd h (by simp [Bind.bind, Except.bind])
    | ok summaries =>
      rw [hc] at h
      refine ⟨rfl, summaries, rfl, ?_⟩
      have h2 : Except.ok (ε := String)
          { updatedAt := env.nowIso, window := wk,
            properties := dedupeLoop (mergedStage env world summaries) [] } = Except.ok resp := h
      injection h2 with h3
      exact h3.symm

theorem mergedStage_def (env : Env) (world : RemoteWorld) (summaries : List PropertySummary) :
    mergedStage env world summaries =
      sortedStage
        (reportRowsOf world (reportTargetsOf (streamResultsStage env world summaries)))
        (errorRowsOf (streamResultsStage env world summaries)) := rfl

/-- C8: a property id on both the allowlist and the blocklist is excluded
from the dashboard output (the blocklist, applied after the allowlist,
wins); the blocklist always contains the built-in default excluded id;
and a blocklisted id requested through the detail view returns the fixed
`summary = null, series = [], error` response for every remote world —
in particular without any remote call, token acquisition included, since
even a world whose every call fails yields the same response. -/
theorem spec_C8 :
    (∀ (env : Env) (world : RemoteWorld) (wk : String) (summaries : List PropertySummary)
        (resp : DashboardResponse) (pid : String) (al : List String),
      getAllowlist env.allowRaw = some al → al.contains pid = true →
      (getBlocklist env.blockRaw).contains pid = true →
      world.accountSummaries = Except.ok summaries →
      getDashboardData env world wk = Except.ok resp →
      ∀ row ∈ resp.properties, row.propertyId ≠ pid) ∧
    (∀ raw : Option String, (getBlocklist raw).contains "508295014" = true) ∧
    (∀ (env : Env) (world : RemoteWorld) (pid : String) (wk : String),
      (getBlocklist env.blockRaw).contains pid = true →
      getPropertyDetail env world pid wk = Except.ok
        { updatedAt := env.nowIso, window := wk,
          property := { propertyId := pid, displayName := pid, defaultUri := none },
          summary := none, series := [],
          error := some "Property is excluded from the dashboard." }) := by
  refine ⟨?_, ?_, ?_⟩
  · intro env world wk summaries resp pid al _ _ hpb _ hok row hrow hpid
    rcases getDashboardData_ok_inv env world wk resp hok with ⟨_, s2, _, hresp⟩
    subst hresp
    have hrow2 := List.Sublist.mem hrow (dedupeLoop_sublist _ [])
    rcases mem_mergedStage_origin env world s2 row hrow2 with ⟨s, hs, hpid2, _⟩
    have hbl := filteredSummaries_not_blocklisted env s2 s hs
    rw [← hpid2, hpid] at hbl
    rw [hbl] at hpb
    exact absurd hpb (by simp)
  · intro raw
    cases raw with
    | none => decide
    | some r =>
      by_cases hr : r = ""
      · subst hr
        decide
      · have hgb : getBlocklist (some r)
            = DEFAULT_BLOCKLIST ++ ((jsSplitCommas r).map jsTrim).filter (fun v => !(v == "")) := by
          simp only [getBlocklist]
          rw [if_neg hr]
        rw [hgb]
        unfold DEFAULT_BLOCKLIST
        rw [List.singleton_append, List.contains_cons]
        simp
  · intro env world pid wk hb
    simp only [getPropertyDetail]
    rw [if_pos hb]

/-- C1: error isolation in `getDashboardData`.  A filtered-in property
whose data-stream listing throws appears in the final output as a row
with null metrics and a non-empty error, and never reaches the metrics
fan-out; a property whose stream lookup succeeds with no web stream is
absent from the output entirely; a property whose metrics fetch throws
produces an error row in the merged (sorted) row list; and the whole
aggregation fails exactly when token acquisition or the catalog listing
fails — never because of a per-property failure. -/
theorem spec_C1 (env : Env) (world : RemoteWorld) (wk : String) :
    (∀ (summaries : List PropertySummary) (s : PropertySummary) (e : String),
      world.auth = Except.ok () → world.accountSummaries = Except.ok summaries →
      s ∈ filteredSummaries env summaries →
      world.dataStreams s.propertyId = Except.error e →
      (∃ resp, getDashboardData env world wk = Except.ok resp ∧
        ∃ row ∈ resp.properties, row.propertyId = s.propertyId ∧ row.newUsers = none ∧
          ∃ m, row.error = some m ∧ m ≠ "") ∧
      (∀ t ∈ reportTargetsOf (streamResultsStage env world summaries),
        t.summary.propertyId ≠ s.propertyId)) ∧
    (∀ (summaries : List PropertySummary) (pid : String) (streams : List DataStream)
        (resp : DashboardResponse),
      world.auth = Except.ok () → world.accountSummaries = Except.ok summaries →
      world.dataStreams pid = Except.ok streams → pickWebStream streams = none →
      getDashboardData env world wk = Except.ok resp →
      ∀ row ∈ resp.properties, row.propertyId ≠ pid) ∧
    (∀ (summaries : List PropertySummary) (s : PropertySummary)
        (streams : List DataStream) (ws : WebStreamInfo) (e : String),
      world.accountSummaries = Except.ok summaries →
      s ∈ filteredSummaries env summaries →
      world.dataStreams s.propertyId = Except.ok streams →
      pickWebStream streams = some ws →
      world.runReport s.propertyId = Except.error e →
      ∃ row ∈ mergedStage env world summaries, row.propertyId = s.propertyId ∧
        row.newUsers = none ∧ ∃ m, row.error = some m ∧ m ≠ "") ∧
    ((world.auth = Except.ok () ∧ ∃ summaries, world.accountSummaries = Except.ok summaries)
      ↔ ∃ resp, getDashboardData env world wk = Except.ok resp) := by
  refine ⟨?_, ?_, ?_, ?_⟩
  · intro summaries s e hauth hcat hs hds
    have hw : streamWorker world s = some ⟨s, none, some (withErrorMessage e)⟩ := by
      simp only [streamWorker, hds]
    constructor
    · have hin : some (⟨s, none, some (withErrorMessage e)⟩ : StreamResult)
          ∈ streamResultsStage env world summaries :=
        hw ▸ List.mem_map_of_mem (streamWorker world) hs
      have herow := mem_errorRows_intro _ _ hin (errTruthy_withErrorMessage e)
      have hmerged : streamErrorRow ⟨s, none, some (withErrorMessage e)⟩
          ∈ mergedStage env world summaries := by
        rw [mergedStage_def]
        exact (sortedStage_perm _ _).mem_iff.2 (List.mem_append.2 (Or.inr herow))
      have hded := mem_dedupeLoop_of_falsy
        (streamErrorRow ⟨s, none, some (withErrorMessage e)⟩) _ rfl [] hmerged
      exact ⟨_, getDashboardData_ok env world wk summaries hauth hcat,
        streamErrorRow ⟨s, none, some (withErrorMessage e)⟩, hded, rfl, rfl,
        withErrorMessage e, rfl, withErrorMessage_ne_empty e⟩
    · intro t ht hteq
      rcases mem_reportTargets_origin _ t ht with ⟨hin, herrt⟩
      rcases List.mem_map.1 hin with ⟨s2, hs2, heq2⟩
      have hsum : t.summary = s2 := streamWorker_summary world s2 t heq2
      rw [hsum] at hteq
      have hw2 : streamWorker world s2 = some ⟨s2, none, some (withErrorMessage e)⟩ := by
        simp only [streamWorker, hteq, hds]
      rw [heq2] at hw2
      injection hw2 with hw3
      rw [hw3] at herrt
      rw [show (⟨s2, none, some (withErrorMessage e)⟩ : StreamResult).error
          = some (withErrorMessage e) from rfl] at herrt
      rw [errTruthy_withErrorMessage e] at herrt
      simp at herrt
  · intro summaries pid streams resp hauth hcat hds hpick hok row hrow hpid
    rcases getDashboardData_ok_inv env world wk resp hok with ⟨_, s2, _, hresp⟩
    subst hresp
    have hrow2 := List.Sublist.mem hrow (dedupeLoop_sublist _ [])
    rcases mem_mergedStage_origin env world s2 row hrow2 with ⟨s, hs, hpid2, hsome⟩
    have hspid : s.propertyId = pid := by rw [← hpid2, hpid]
    have hnone : streamWorker world s = none := by
      simp only [streamWorker, hspid, hds, hpick]
    rw [hnone] at hsome
    simp at hsome
  · intro summaries s streams ws e hcat hs hds hpick hrep
    have hw : streamWorker world s = some ⟨s, some ws, none⟩ := by
      simp only [streamWorker, hds, hpick]
    have hin : some (⟨s, some ws, none⟩ : StreamResult)
        ∈ streamResultsStage env world summaries :=
      hw ▸ List.mem_map_of_mem (streamWorker world) hs
    have ht := mem_reportTargets_intro _ (⟨s, some ws, none⟩ : StreamResult) hin rfl
    have hrowmem : reportWorker world ⟨s, some ws, none⟩
        ∈ reportRowsOf world (reportTargetsOf (streamResultsStage env world summaries)) :=
      List.mem_map_of_mem _ ht
    have hval : reportWorker world ⟨s, some ws, none⟩
        = { propertyId := s.propertyId, displayName := s.displayName,
            defaultUri := ws.defaultUri, newUsers := none,
            error := some (withErrorMessage e) } := by
      simp only [reportWorker, hrep]
      rfl
    refine ⟨reportWorker world ⟨s, some ws, none⟩, ?_, ?_, ?_, ?_⟩
    · rw [mergedStage_def]
      exact (sortedStage_perm _ _).mem_iff.2 (List.mem_append.2 (Or.inl hrowmem))
    · rw [hval]
    · rw [hval]
    · exact ⟨withErrorMessage e, by rw [hval], withErrorMessage_ne_empty e⟩
  · constructor
    · rintro ⟨hauth, summaries, hcat⟩
      exact ⟨_, getDashboardData_ok env world wk summaries hauth hcat⟩
    · rintro ⟨resp, hok⟩
      rcases getDashboardData_ok_inv env world wk resp hok with ⟨hauth, s2, hcat2, _⟩
      exact ⟨hauth, s2, hcat2⟩

/-- C6 (amended): the dashboard output is sorted by `newUsers.current`
descending with error rows keyed as -1 (hence last); deduplication by
normalized domain keeps the first occurrence in sorted order and removes
later rows with the same normalized domain — but only among rows whose
`defaultUri` is truthy: a row whose `defaultUri` is `null` OR the empty
string is never removed, because the guard at ga.ts line 532 tests JS
falsiness (`!property.defaultUri`), not just `null`.  In particular
`https://a.com/` and `http://a.com` normalize to the same domain.  The
claim's original wording — only `null` rows exempt from removal — is
refuted by the counterexample theorem below. -/
theorem spec_C6 (env : Env) (world : RemoteWorld) (wk : String)
    (summaries : List PropertySummary) (resp : DashboardResponse)
    (hcat : world.accountSummaries = Except.ok summaries)
    (hok : getDashboardData env world wk = Except.ok resp) :
    resp.properties.Pairwise (fun a b => sortKey b ≤ sortKey a) ∧
    (mergedStage env world summaries).Pairwise (fun a b => sortKey b ≤ sortKey a) ∧
    resp.properties.Sublist (mergedStage env world summaries) ∧
    resp.properties.Pairwise (fun a b => ∀ u v, a.defaultUri = some u →
      b.defaultUri = some v → u ≠ "" → v ≠ "" → normalizeUri u ≠ normalizeUri v) ∧
    resp.properties.filter (fun p => p.defaultUri.isNone)
      = (mergedStage env world summaries).filter (fun p => p.defaultUri.isNone) ∧
    resp.properties.filter (fun p => uriFalsy p.defaultUri)
      = (mergedStage env world summaries).filter (fun p => uriFalsy p.defaultUri) ∧
    (∀ d p, (mergedStage env world summaries).find? (fun q => domMatches q d) = some p →
      p ∈ resp.properties) ∧
    normalizeUri "https://a.com/" = "a.com" ∧ normalizeUri "http://a.com" = "a.com" := by
  rcases getDashboardData_ok_inv env world wk resp hok with ⟨_, s2, hcat2, hresp⟩
  have hs2 : s2 = summaries := by
    rw [hcat2] at hcat
    injection hcat
  subst hs2
  subst hresp
  refine ⟨?_, ?_, ?_, ?_, ?_, ?_, ?_, by decide, by decide⟩
  · exact List.Pairwise.sublist (dedupeLoop_sublist _ [])
      (by rw [mergedStage_def]; exact sortedStage_pairwise _ _)
  · rw [mergedStage_def]
    exact sortedStage_pairwise _ _
  · exact dedupeLoop_sublist _ []
  · exact dedupeLoop_pairwise_domains _ []
  · exact dedupeLoop_filter_none _ []
  · exact dedupeLoop_filter_falsy _ []
  · intro d p hfind
    exact dedupeLoop_first_kept _ [] d p hfind rfl

def wEnvA : Env := { allowRaw := none, blockRaw := none, nowIso := "now", todayUtc := 0 }

def wWorldA : RemoteWorld :=
  { auth := Except.ok (), accountSummaries := Except.ok [⟨"p1", "P1"⟩],
    dataStreams := fun _ => Except.error "boom",
    runReport := fun _ => Except.error "unused",
    propertyName := fun _ => Except.ok none,
    seriesRows := fun _ _ => Except.ok [] }

theorem spec_C1_witness :
    ∃ resp, getDashboardData wEnvA wWorldA "d7" = Except.ok resp ∧
      ∃ row ∈ resp.properties, row.propertyId = "p1" ∧ row.newUsers = none ∧
        ∃ m, row.error = some m ∧ m ≠ "" :=
  ((spec_C1 wEnvA wWorldA "d7").1 [⟨"p1", "P1"⟩] ⟨"p1", "P1"⟩ "boom" rfl rfl
    (by decide) rfl).1

def wStreamA : DataStream :=
  { type := some "WEB_DATA_STREAM",
    webStreamData := some { defaultUri := some "https://a.com/", measurementId := none } }

def wStreamB : DataStream :=
  { type := some "WEB_DATA_STREAM",
    webStreamData := some { defaultUri := some "http://a.com", measurementId := none } }

def wWorldB : RemoteWorld :=
  { auth := Except.ok (),
    accountSummaries := Except.ok [⟨"p1", "P1"⟩, ⟨"p2", "P2"⟩],
    dataStreams := fun pid =>
      if pid = "p1" then Except.ok [wStreamA] else Except.ok [wStreamB],
    runReport := fun pid =>
      if pid = "p1" then Except.ok { rows := some [tagRow "date_range_0" 100] }
      else Except.ok { rows := some [tagRow "date_range_0" 50] },
    propertyName := fun _ => Except.ok none,
    seriesRows := fun _ _ => Except.ok [] }

def wRowB : DashboardProperty :=
  { propertyId := "p1", displayName := "P1",
    defaultUri := some "https://a.com/",
    newUsers := some { current := 100, previous := 0, delta := 100, pct := none },
    error := none }

def wRespB : DashboardResponse :=
  { updatedAt := "now", window := "d7", properties := [wRowB] }

theorem spec_C6_witness :
    getDashboardData wEnvA wWorldB "d7" = Except.ok wRespB ∧
    wRespB.properties.Pairwise (fun a b => sortKey b ≤ sortKey a) :=
  ⟨rfl, (spec_C6 wEnvA wWorldB "d7" [⟨"p1", "P1"⟩, ⟨"p2", "P2"⟩] wRespB rfl rfl).1⟩

def wStreamE : DataStream :=
  { type := some "WEB_DATA_STREAM",
    webStreamData := some { defaultUri := some "", measurementId := none } }

def wWorldE : RemoteWorld :=
  { auth := Except.ok (),
    accountSummaries := Except.ok [⟨"p1", "P1"⟩, ⟨"p2", "P2"⟩],
    dataStreams := fun _ => Except.ok [wStreamE],
    runReport := fun pid =>
      if pid = "p1" then Except.ok { rows := some [tagRow "date_range_0" 100] }
      else Except.ok { rows := some [tagRow "date_range_0" 50] },
    propertyName := fun _ => Except.ok none,
    seriesRows := fun _ _ => Except.ok [] }

def wRowE1 : DashboardProperty :=
  { propertyId := "p1", displayName := "P1", defaultUri := some "",
    newUsers := some { current := 100, previous := 0, delta := 100, pct := none },
    error := none }

def wRowE2 : DashboardProperty :=
  { propertyId := "p2", displayName := "P2", defaultUri := some "",
    newUsers := some { current := 50, previous := 0, delta := 50, pct := none },
    error := none }

/-- C6 counterexample to the claim as stated: the dedup guard at ga.ts
line 532 is `!property.defaultUri` — JS falsiness — so a row whose
`defaultUri` is the empty string (reachable: `pickWebStream` falls back
to the first web stream even when its `defaultUri` is `""`, and `?? null`
preserves `""`) is pushed without ever consulting the seen set.  Two such
rows share the normalized domain `""` yet both survive, although neither
has `defaultUri = null`: the claim's rule that every later occurrence of
a repeated normalized domain is removed unless its `defaultUri` is `null`
does not hold of the code. -/
theorem spec_C6_counterexample :
    getDashboardData wEnvA wWorldE "d7" = Except.ok
      { updatedAt := "now", window := "d7", properties := [wRowE1, wRowE2] } ∧
    (∀ row ∈ [wRowE1, wRowE2], row.defaultUri ≠ none) ∧
    wRowE1.defaultUri = some "" ∧ wRowE2.defaultUri = some "" ∧
    ¬ List.Pairwise (fun a b => ∀ u v, a.defaultUri = some u →
        b.defaultUri = some v → normalizeUri u ≠ normalizeUri v) [wRowE1, wRowE2] := by
  refine ⟨rfl, by decide, rfl, rfl, ?_⟩
  intro hpw
  exact List.rel_of_pairwise_cons hpw (List.mem_cons_self _ _) "" "" rfl rfl rfl

def wEnvC : Env :=
  { allowRaw := some "508295014", blockRaw := none, nowIso := "now", todayUtc := 0 }

def wWorldC : RemoteWorld :=
  { auth := Except.ok (), accountSummaries := Except.ok [⟨"508295014", "X"⟩],
    dataStreams := fun _ => Except.ok [],
    runReport := fun _ => Except.ok { rows := none },
    propertyName := fun _ => Except.ok none,
    seriesRows := fun _ _ => Except.ok [] }

theorem spec_C8_witness :
    (getAllowlist wEnvC.allowRaw = some ["508295014"] ∧
      (getBlocklist wEnvC.blockRaw).contains "508295014" = true) ∧
    (∀ row ∈ ({ updatedAt := "now", window := "d7", properties := [] } :
        DashboardResponse).properties, row.propertyId ≠ "508295014") ∧
    getPropertyDetail wEnvC wWorldC "508295014" "d7" = Except.ok
      { updatedAt := "now", window := "d7",
        property := { propertyId := "508295014", displayName := "508295014",
                      defaultUri := none },
        summary := none, series := [],
        error := some "Property is excluded from the dashboard." } :=
  ⟨⟨by decide, by decide⟩,
   spec_C8.1 wEnvC wWorldC "d7" [⟨"508295014", "X"⟩]
     { updatedAt := "now", window := "d7", properties := [] } "508295014" ["508295014"]
     (by decide) (by decide) (by decide) rfl rfl,
   spec_C8.2.2 wEnvC wWorldC "508295014" "d7" (by decide)⟩

/-! ## runLimited: scheduler invariant and C9 -/

/-- Invariant of the `runLimited` scheduler (ga.ts lines 415-439): the
buffer has one slot per item and the runner pool has `min(limit, n)`
runners; claimed-but-unfinished indices are in-bounds, below the cursor,
pairwise distinct and their slots still empty; every index below the
cursor is either filled with the worker's result or currently claimed;
indices at or above the cursor are empty; and a runner only exits after
the cursor has passed the end. -/
structure RLInv {T R : Type} (items : List T) (f : T → Nat → R) (limit : Nat)
    (s : RLState R) : Prop where
  rlen : s.results.length = items.length
  runlen : s.runners.length = min limit items.length
  nodupWait : ∀ (k1 k2 i : Nat), s.runners[k1]? = some (RunnerState.waiting i) →
    s.runners[k2]? = some (RunnerState.waiting i) → k1 = k2
  waitBound : ∀ (k i : Nat), s.runners[k]? = some (RunnerState.waiting i) →
    i < items.length ∧ i < s.nextIndex
  waitNone : ∀ (k i : Nat), s.runners[k]? = some (RunnerState.waiting i) →
    s.results[i]? = some none
  low : ∀ (i : Nat), i < items.length → i < s.nextIndex →
    (∃ a, items[i]? = some a ∧ s.results[i]? = some (some (f a i))) ∨
    (∃ k : Nat, s.runners[k]? = some (RunnerState.waiting i))
  high : ∀ (i : Nat), s.nextIndex ≤ i → i < items.length → s.results[i]? = some none
  doneHigh : ∀ (k : Nat), s.runners[k]? = some RunnerState.done → items.length ≤ s.nextIndex

theorem rlinv_init {T R : Type} (items : List T) (f : T → Nat → R) (limit : Nat) :
    RLInv items f limit (initState items limit (T := T) (R := R)) := by
  have hrun : ∀ (k : Nat) (st : RunnerState),
      (initState items limit (T := T) (R := R)).runners[k]? = some st →
        st = RunnerState.idle := by
    intro k st h
    rw [show (initState items limit (T := T) (R := R)).runners
      = List.replicate (min limit items.length) RunnerState.idle from rfl,
      List.getElem?_replicate] at h
    by_cases hk : k < min limit items.length
    · rw [if_pos hk] at h
      exact (Option.some.inj h).symm
    · rw [if_neg hk] at h
      exact absurd h (by simp)
  refine ⟨?_, ?_, ?_, ?_, ?_, ?_, ?_, ?_⟩
  · simp [initState]
  · simp [initState]
  · intro k1 k2 i h1 _
    exact absurd (hrun k1 _ h1) (by intro hcon; cases hcon)
  · intro k i h1
    exact absurd (hrun k _ h1) (by intro hcon; cases hcon)
  · intro k i h1
    exact absurd (hrun k _ h1) (by intro hcon; cases hcon)
  · intro i _ hlt
    exact absurd hlt (by simp [initState])
  · intro i _ hi
    rw [show (initState items limit (T := T) (R := R)).results
      = List.replicate items.length none from rfl, List.getElem?_replicate]
    rw [if_pos hi]
  · intro k h1
    exact absurd (hrun k _ h1) (by intro hcon; cases hcon)

theorem rlinv_step {T R : Type} (items : List T) (f : T → Nat → R) (limit : Nat)
    (s t : RLState R) (hinv : RLInv items f limit s) (hstep : RLStep items f s t) :
    RLInv items f limit t := by
  cases hstep with
  | claim k hk hlt =>
    have hklen : k < s.runners.length := by
      by_cases hlen : k < s.runners.length
      · exact hlen
      · rw [List.getElem?_eq_none (by omega)] at hk
        exact absurd hk (by simp)
    have hset : ∀ (j : Nat) (st : RunnerState),
        (s.runners.set k st)[j]? = if k = j then some st else s.runners[j]? := by
      intro j st
      rw [List.getElem?_set]
      by_cases hkj : k = j
      · rw [if_pos hkj, if_pos hkj, if_pos (hkj ▸ hklen)]
      · rw [if_neg hkj, if_neg hkj]
    refine ⟨hinv.rlen, by rw [List.length_set]; exact hinv.runlen, ?_, ?_, ?_, ?_, ?_, ?_⟩
    · intro k1 k2 i h1 h2
      rw [hset] at h1 h2
      by_cases e1 : k = k1 <;> by_cases e2 : k = k2
      · rw [← e1, ← e2]
      · rw [if_pos e1] at h1
        rw [if_neg e2] at h2
        have h3 := Option.some.inj h1
        injection h3 with h4
        have hb := hinv.waitBound k2 i h2
        omega
      · rw [if_neg e1] at h1
        rw [if_pos e2] at h2
        have h3 := Option.some.inj h2
        injection h3 with h4
        have hb := hinv.waitBound k1 i h1
        omega
      · rw [if_neg e1] at h1
        rw [if_neg e2] at h2
        exact hinv.nodupWait k1 k2 i h1 h2
    · intro k1 i h1
      rw [hset] at h1
      show i < items.length ∧ i < s.nextIndex + 1
      by_cases e1 : k = k1
      · rw [if_pos e1] at h1
        have h3 := Option.some.inj h1
        injection h3 with h4
        omega
      · rw [if_neg e1] at h1
        have hb := hinv.waitBound k1 i h1
        omega
    · intro k1 i h1
      rw [hset] at h1
      by_cases e1 : k = k1
      · rw [if_pos e1] at h1
        have h3 := Option.some.inj h1
        injection h3 with h4
        rw [← h4]
        exact hinv.high s.nextIndex (le_refl _) hlt
      · rw [if_neg e1] at h1
        exact hinv.waitNone k1 i h1
    · intro i hi hilt
      have hilt2 : i < s.nextIndex + 1 := hilt
      by_cases hix : i < s.nextIndex
      · rcases hinv.low i hi hix with ⟨a, ha, hres⟩ | ⟨k2, hk2⟩
        · exact Or.inl ⟨a, ha, hres⟩
        · refine Or.inr ⟨k2, ?_⟩
          rw [hset]
          have e2 : ¬ k = k2 := by
            intro he
            rw [← he] at hk2
            rw [hk] at hk2
            exact absurd (Option.some.inj hk2) (by intro hcon; cases hcon)
          rw [if_neg e2]
          exact hk2
      · have hinx : i = s.nextIndex := by omega
        refine Or.inr ⟨k, ?_⟩
        rw [hset, if_pos rfl, hinx]
    · intro i hge hi
      have hge2 : s.nextIndex + 1 ≤ i := hge
      exact hinv.high i (by omega) hi
    · intro k1 h1
      rw [hset] at h1
      show items.length ≤ s.nextIndex + 1
      by_cases e1 : k = k1
      · rw [if_pos e1] at h1
        exact absurd (Option.some.inj h1) (by intro hcon; cases hcon)
      · rw [if_neg e1] at h1
        have := hinv.doneHigh k1 h1
        omega
  | exit k hk hge =>
    have hklen : k < s.runners.length := by
      by_cases hlen : k < s.runners.length
      · exact hlen
      · rw [List.getElem?_eq_none (by omega)] at hk
        exact absurd hk (by simp)
    have hset : ∀ (j : Nat) (st : RunnerState),
        (s.runners.set k st)[j]? = if k = j then some st else s.runners[j]? := by
      intro j st
      rw [List.getElem?_set]
      by_cases hkj : k = j
      · rw [if_pos hkj, if_pos hkj, if_pos (hkj ▸ hklen)]
      · rw [if_neg hkj, if_neg hkj]
    refine ⟨hinv.rlen, by rw [List.length_set]; exact hinv.runlen, ?_, ?_, ?_, ?_, ?_, ?_⟩
    · intro k1 k2 i h1 h2
      rw [hset] at h1 h2
      by_cases e1 : k = k1
      · rw [if_pos e1] at h1
        exact absurd (Option.some.inj h1) (by intro hcon; cases hcon)
      · by_cases e2 : k = k2
        · rw [if_pos e2] at h2
          exact absurd (Option.some.inj h2) (by intro hcon; cases hcon)
        · rw [if_neg e1] at h1
          rw [if_neg e2] at h2
          exact hinv.nodupWait k1 k2 i h1 h2
    · intro k1 i h1
      rw [hset] at h1
      show i < items.length ∧ i < s.nextIndex + 1
      by_cases e1 : k = k1
      · rw [if_pos e1] at h1
        exact absurd (Option.some.inj h1) (by intro hcon; cases hcon)
      · rw [if_neg e1] at h1
        have hb := hinv.waitBound k1 i h1
        omega
    · intro k1 i h1
      rw [hset] at h1
      by_cases e1 : k = k1
      · rw [if_pos e1] at h1
        exact absurd (Option.some.inj h1) (by intro hcon; cases hcon)
      · rw [if_neg e1] at h1
        exact hinv.waitNone k1 i h1
    · intro i hi hilt
      have hilt2 : i < s.nextIndex + 1 := hilt
      by_cases hix : i < s.nextIndex
      · rcases hinv.low i hi hix with ⟨a, ha, hres⟩ | ⟨k2, hk2⟩
        · exact Or.inl ⟨a, ha, hres⟩
        · refine Or.inr ⟨k2, ?_⟩
          rw [hset]
          have e2 : ¬ k = k2 := by
            intro he
            rw [← he] at hk2
            rw [hk] at hk2
            exact absurd (Option.some.inj hk2) (by intro hcon; cases hcon)
          rw [if_neg e2]
          exact hk2
      · exact absurd hi (by omega)
    · intro i hge2 hi
      have hge3 : s.nextIndex + 1 ≤ i := hge2
      exact hinv.high i (by omega) hi
    · intro k1 h1
      rw [hset] at h1
      show items.length ≤ s.nextIndex + 1
      by_cases e1 : k = k1
      · omega
      · rw [if_neg e1] at h1
        have := hinv.doneHigh k1 h1
        omega
  | finish k i a hk ha =>
    have hklen : k < s.runners.length := by
      by_cases hlen : k < s.runners.length
      · exact hlen
      · rw [List.getElem?_eq_none (by omega)] at hk
        exact absurd hk (by simp)
    have hset : ∀ (j : Nat) (st : RunnerState),
        (s.runners.set k st)[j]? = if k = j then some st else s.runners[j]? := by
      intro j st
      rw [List.getElem?_set]
      by_cases hkj : k = j
      · rw [if_pos hkj, if_pos hkj, if_pos (hkj ▸ hklen)]
      · rw [if_neg hkj, if_neg hkj]
    have hbk := hinv.waitBound k i hk
    have hilen : i < s.results.length := by
      rw [hinv.rlen]
      exact hbk.1
    have hresset : ∀ (j : Nat) (v : Option R),
        (s.results.set i v)[j]? = if i = j then some v else s.results[j]? := by
      intro j v
      rw [List.getElem?_set]
      by_cases hij : i = j
      · rw [if_pos hij, if_pos hij, if_pos (hij ▸ hilen)]
      · rw [if_neg hij, if_neg hij]
    refine ⟨by rw [List.length_set]; exact hinv.rlen,
      by rw [List.length_set]; exact hinv.runlen, ?_, ?_, ?_, ?_, ?_, ?_⟩
    · intro k1 k2 j h1 h2
      rw [hset] at h1 h2
      by_cases e1 : k = k1
      · rw [if_pos e1] at h1
        exact absurd (Option.some.inj h1) (by intro hcon; cases hcon)
      · by_cases e2 : k = k2
        · rw [if_pos e2] at h2
          exact absurd (Option.some.inj h2) (by intro hcon; cases hcon)
        · rw [if_neg e1] at h1
          rw [if_neg e2] at h2
          exact hinv.nodupWait k1 k2 j h1 h2
    · intro k1 j h1
      rw [hset] at h1
      by_cases e1 : k = k1
      · rw [if_pos e1] at h1
        exact absurd (Option.some.inj h1) (by intro hcon; cases hcon)
      · rw [if_neg e1] at h1
        exact hinv.waitBound k1 j h1
    · intro k1 j h1
      rw [hset] at h1
      by_cases e1 : k = k1
      · rw [if_pos e1] at h1
        exact absurd (Option.some.inj h1) (by intro hcon; cases hcon)
      · rw [if_neg e1] at h1
        have hji : ¬ i = j := by
          intro he
          rw [← he] at h1
          exact e1 (hinv.nodupWait k k1 i hk h1)
        rw [hresset, if_neg hji]
        exact hinv.waitNone k1 j h1
    · intro j hj hjx
      by_cases hji : i = j
      · subst hji
        exact Or.inl ⟨a, ha, by rw [hresset, if_pos rfl]⟩
      · rcases hinv.low j hj hjx with ⟨b, hb, hres⟩ | ⟨k2, hk2⟩
        · exact Or.inl ⟨b, hb, by rw [hresset, if_neg hji]; exact hres⟩
        · refine Or.inr ⟨k2, ?_⟩
          have e2 : ¬ k = k2 := by
            intro he
            rw [← he] at hk2
            rw [hk] at hk2
            have h3 := Option.some.inj hk2
            injection h3 with h4
            exact hji h4
          rw [hset, if_neg e2]
          exact hk2
    · intro j hge hj
      have hge2 : s.nextIndex ≤ j := hge
      have hji : ¬ i = j := by omega
      rw [hresset, if_neg hji]
      exact hinv.high j hge2 hj
    · intro k1 h1
      rw [hset] at h1
      by_cases e1 : k = k1
      · rw [if_pos e1] at h1
        exact absurd (Option.some.inj h1) (by intro hcon; cases hcon)
      · rw [if_neg e1] at h1
        exact hinv.doneHigh k1 h1

theorem rlinv_reach {T R : Type} (items : List T) (f : T → Nat → R) (limit : Nat)
    (s : RLState R)
    (hreach : Relation.ReflTransGen (RLStep items f) (initState items limit) s) :
    RLInv items f limit s := by
  induction hreach with
  | refl => exact rlinv_init items f limit
  | tail _ hstep ih => exact rlinv_step items f limit _ _ ih hstep

/-- C9: `runLimited` fills its result buffer in input order.  For every
item list, every `limit ≥ 1` and every worker, any completed scheduler
run (all runners broken out of the loop) from the initial state leaves a
buffer of the input's length whose slot `i` holds exactly the worker's
result for `items[i]` — the output is the worker mapped over the items in
input order, whatever the interleaving — using a pool of exactly
`min(limit, # items)` runners. -/
theorem spec_C9 {T R : Type} (items : List T) (f : T → Nat → R) (limit : Nat)
    (s : RLState R) (hlim : 1 ≤ limit)
    (hreach : Relation.ReflTransGen (RLStep items f) (initState items limit) s)
    (hdone : ∀ st ∈ s.runners, st = RunnerState.done) :
    s.results.length = items.length ∧
    s.runners.length = min limit items.length ∧
    ∀ i : Nat, s.results[i]? = (items[i]?).map (fun a => some (f a i)) := by
  have hinv := rlinv_reach items f limit s hreach
  refine ⟨hinv.rlen, hinv.runlen, ?_⟩
  intro i
  by_cases hi : i < items.length
  · have hnempty : 0 < items.length := by omega
    have hrunpos : 0 < s.runners.length := by
      rw [hinv.runlen]
      omega
    have h0 : ∃ st, s.runners[0]? = some st := by
      rcases List.getElem?_eq_some_iff.2 ⟨hrunpos, rfl⟩ with h
      exact ⟨_, h⟩
    rcases h0 with ⟨st, hst⟩
    have hmem : st ∈ s.runners := List.getElem?_mem hst
    have hstdone : st = RunnerState.done := hdone st hmem
    rw [hstdone] at hst
    have hnx : items.length ≤ s.nextIndex := hinv.doneHigh 0 hst
    rcases hinv.low i hi (by omega) with ⟨a, ha, hres⟩ | ⟨k2, hk2⟩
    · rw [ha, hres]
      rfl
    · have hmem2 : RunnerState.waiting i ∈ s.runners := List.getElem?_mem hk2
      exact absurd (hdone _ hmem2) (by intro hcon; cases hcon)
  · have h1 : items[i]? = none := List.getElem?_eq_none (by omega)
    have h2 : s.results[i]? = none := List.getElem?_eq_none (by rw [hinv.rlen]; omega)
    rw [h1, h2]
    rfl

theorem spec_C9_witness :
    (⟨4, [some 11, some 21], [RunnerState.done, RunnerState.done]⟩ : RLState Nat).results.length
      = ([10, 20] : List Nat).length := by
  have c1 : RLStep [10, 20] (fun a _ => a + 1)
      ⟨0, [none, none], [RunnerState.idle, RunnerState.idle]⟩
      ⟨1, [none, none], [RunnerState.waiting 0, RunnerState.idle]⟩ :=
    RLStep.claim _ 0 (by decide) (by decide)
  have c2 : RLStep [10, 20] (fun a _ => a + 1)
      ⟨1, [none, none], [RunnerState.waiting 0, RunnerState.idle]⟩
      ⟨2, [none, none], [RunnerState.waiting 0, RunnerState.waiting 1]⟩ :=
    RLStep.claim _ 1 (by decide) (by decide)
  have c3 : RLStep [10, 20] (fun a _ => a + 1)
      ⟨2, [none, none], [RunnerState.waiting 0, RunnerState.waiting 1]⟩
      ⟨2, [some 11, none], [RunnerState.idle, RunnerState.waiting 1]⟩ :=
    RLStep.finish _ 0 0 10 (by decide) (by decide)
  have c4 : RLStep [10, 20] (fun a _ => a + 1)
      ⟨2, [some 11, none], [RunnerState.idle, RunnerState.waiting 1]⟩
      ⟨2, [some 11, some 21], [RunnerState.idle, RunnerState.idle]⟩ :=
    RLStep.finish _ 1 1 20 (by decide) (by decide)
  have c5 : RLStep [10, 20] (fun a _ => a + 1)
      ⟨2, [some 11, some 21], [RunnerState.idle, RunnerState.idle]⟩
      ⟨3, [some 11, some 21], [RunnerState.done, RunnerState.idle]⟩ :=
    RLStep.exit _ 0 (by decide) (by decide)
  have c6 : RLStep [10, 20] (fun a _ => a + 1)
      ⟨3, [some 11, some 21], [RunnerState.done, RunnerState.idle]⟩
      ⟨4, [some 11, some 21], [RunnerState.done, RunnerState.done]⟩ :=
    RLStep.exit _ 1 (by decide) (by decide)
  have hchain : Relation.ReflTransGen (RLStep [10, 20] (fun a _ => a + 1))
      (initState [10, 20] 2)
      ⟨4, [some 11, some 21], [RunnerState.done, RunnerState.done]⟩ :=
    Relation.ReflTransGen.tail
      (Relation.ReflTransGen.tail
        (Relation.ReflTransGen.tail
          (Relation.ReflTransGen.tail
            (Relation.ReflTransGen.tail (Relation.ReflTransGen.single c1) c2) c3) c4) c5) c6
  exact (spec_C9 [10, 20] (fun a _ => a + 1) 2 _ (by decide) hchain (by decide)).1
